import Mathlib

/-!
# Verification of the boxs/datastock artifact store

A shallow embedding, in Lean, of the core of the `boxs` / `datastock`
repository (identity derivation, store orchestrator, value codecs,
transformer chains, the filesystem backend's info/naming operations and
`DataRef` URIs), together with theorems settling the specification claims
about it.

Conventions of the embedding:
* Python `str` is modelled as `Str := List Char` (a sequence of Unicode
  scalar values); Python `bytes` as `List Nat` with byte values.
* Python dicts are modelled as association lists with Python's
  `dict.update` semantics.
* Stateful code is modelled by explicit state passing; backend calls are
  additionally logged in an event trace so that statements such as
  "no writer is created" are expressible.
* Fallible code returns `Except`.
-/

/-- Python `str`, modelled as its sequence of characters. -/
abbrev Str := List Char

/-- Byte strings (Python `bytes`): lists of byte values. -/
abbrev Bytes := List Nat

/-- Set a key in an association list (replace the first match in place,
otherwise append); the update step of a Python dict assignment. -/
def kvSet [DecidableEq κ] (d : List (κ × α)) (k : κ) (v : α) : List (κ × α) :=
  match d with
  | [] => [(k, v)]
  | (k', v') :: rest =>
    if k' = k then (k', v) :: rest else (k', v') :: kvSet rest k v

/-- Look up a key in an association list (first match); a Python dict
access. -/
def kvGet [DecidableEq κ] (d : List (κ × α)) (k : κ) : Option α :=
  match d with
  | [] => none
  | (k', v') :: rest => if k' = k then some v' else kvGet rest k

namespace PyDict

/-- `d[k] = v` for a Python dict modelled as an association list. -/
def set (d : List (Str × α)) (k : Str) (v : α) : List (Str × α) :=
  kvSet d k v

/-- `d.update(u)`: set every pair of `u` into `d`, in order. -/
def update (d u : List (Str × α)) : List (Str × α) :=
  u.foldl (fun acc kv => set acc kv.1 kv.2) d

/-- `d.get(k)` / `d[k]`: value of the first pair with the given key. -/
def get (d : List (Str × α)) (k : Str) : Option α :=
  kvGet d k

end PyDict

/-- A Python dict with `Str` keys. -/
abbrev Dict (α : Type) := List (Str × α)

/-! ## blake2b (`hashlib.blake2b`, unkeyed, as used by `calculate_data_id`)

An executable model of the BLAKE2b hash (RFC 7693) over `Nat`, with
64-bit arithmetic made explicit via `% 2 ^ 64`. `calculate_data_id` calls
it with `digest_size=8`. -/

namespace Blake2b

/-- The 64-bit modulus. -/
def M64 : Nat := 2 ^ 64

/-- Rotate a 64-bit word right by `n` bits. -/
def rotr (x n : Nat) : Nat :=
  ((x >>> n) ||| (x <<< (64 - n))) % M64

/-- The BLAKE2b initialization vector. -/
def IV : List Nat :=
  [0x6a09e667f3bcc908, 0xbb67ae8584caa73b, 0x3c6ef372fe94f82b,
   0xa54ff53a5f1d36f1, 0x510e527fade682d1, 0x9b05688c2b3e6c1f,
   0x1f83d9abfb41bd6b, 0x5be0cd19137e2179]

/-- The message schedule SIGMA (rounds cycle through these ten rows). -/
def SIGMA : List (List Nat) :=
  [[0, 1, 2, 3, 4, 5, 6, 7, 8, 9, 10, 11, 12, 13, 14, 15],
   [14, 10, 4, 8, 9, 15, 13, 6, 1, 12, 0, 2, 11, 7, 5, 3],
   [11, 8, 12, 0, 5, 2, 15, 13, 10, 14, 3, 6, 7, 1, 9, 4],
   [7, 9, 3, 1, 13, 12, 11, 14, 2, 6, 5, 10, 4, 0, 15, 8],
   [9, 0, 5, 7, 2, 4, 10, 15, 14, 1, 11, 12, 6, 8, 3, 13],
   [2, 12, 6, 10, 0, 11, 8, 3, 4, 13, 7, 5, 15, 14, 1, 9],
   [12, 5, 1, 15, 14, 13, 4, 10, 0, 7, 6, 3, 9, 2, 8, 11],
   [13, 11, 7, 14, 12, 1, 3, 9, 5, 0, 15, 4, 8, 6, 2, 10],
   [6, 15, 14, 9, 11, 3, 0, 8, 12, 2, 13, 7, 1, 4, 10, 5],
   [10, 2, 8, 4, 7, 6, 1, 5, 15, 11, 9, 14, 3, 12, 13, 0]]

/-- `l[i]`, defaulting to `0` out of range (never hit on valid indices). -/
def nth (l : List Nat) (i : Nat) : Nat := l.getD i 0

/-- Replace the `i`-th element of a word vector. -/
def setNth (l : List Nat) (i : Nat) (v : Nat) : List Nat := l.set i v

/-- The G mixing function on the work vector `v`. -/
def g (v : List Nat) (a b c d x y : Nat) : List Nat :=
  let va := (nth v a + nth v b + x) % M64
  let vd := rotr ((nth v d).xor va) 32
  let vc := (nth v c + vd) % M64
  let vb := rotr ((nth v b).xor vc) 24
  let va := (va + vb + y) % M64
  let vd := rotr (vd.xor va) 16
  let vc := (vc + vd) % M64
  let vb := rotr (vb.xor vc) 63
  setNth (setNth (setNth (setNth v a va) b vb) c vc) d vd

/-- One round of the compression function, using schedule row `s` over the
message words `m`. -/
def round (m : List Nat) (v : List Nat) (s : List Nat) : List Nat :=
  let gm := fun v a b c d i j => g v a b c d (nth m (nth s i)) (nth m (nth s j))
  let v := gm v 0 4 8 12 0 1
  let v := gm v 1 5 9 13 2 3
  let v := gm v 2 6 10 14 4 5
  let v := gm v 3 7 11 15 6 7
  let v := gm v 0 5 10 15 8 9
  let v := gm v 1 6 11 12 10 11
  let v := gm v 2 7 8 13 12 13
  let v := gm v 3 4 9 14 14 15
  v

/-- The compression function F: compress one 128-byte block (given as 16
little-endian words `m`) into the state `h`; `t` is the byte counter and
`f` the final-block flag. -/
def compress (h : List Nat) (m : List Nat) (t : Nat) (f : Bool) : List Nat :=
  let v := h ++ IV
  let v := setNth v 12 ((nth v 12).xor (t % M64))
  let v := setNth v 13 ((nth v 13).xor (t / M64 % M64))
  let v := if f then setNth v 14 ((nth v 14).xor (M64 - 1)) else v
  let v := (List.range 12).foldl (fun v i => round m v (SIGMA.getD (i % 10) [])) v
  (List.range 8).map fun i => ((nth h i).xor ((nth v i).xor (nth v (i + 8))))

/-- Interpret 8 bytes (little-endian) as a 64-bit word. -/
def wordOfBytesLE (bs : List Nat) : Nat :=
  bs.foldr (fun b acc => b + 256 * acc) 0

/-- Split a 128-byte block into its 16 little-endian words. -/
def blockWords (block : List Nat) : List Nat :=
  (List.range 16).map fun i => wordOfBytesLE ((block.drop (8 * i)).take 8)

/-- Pad a final block with zero bytes up to 128 bytes. -/
def padBlock (block : List Nat) : List Nat :=
  block ++ List.replicate (128 - block.length) 0

/-- Compress the whole message: full blocks with a running byte counter,
then the zero-padded final block with the final flag set. -/
def loop (h : List Nat) (msg : List Nat) (t : Nat) : List Nat :=
  if hlen : msg.length ≤ 128 then
    compress h (blockWords (padBlock msg)) (t + msg.length) true
  else
    loop (compress h (blockWords (msg.take 128)) (t + 128) false) (msg.drop 128) (t + 128)
termination_by msg.length
decreasing_by
  simp only [List.length_drop]
  omega

/-- The first `n` bytes of the state `h`, little-endian word by word. -/
def outBytes (h : List Nat) (n : Nat) : List Nat :=
  ((h.map fun w => (List.range 8).map fun i => w >>> (8 * i) % 256).flatten).take n

/-- One lowercase hex digit. -/
def hexDigit (n : Nat) : Char :=
  if n < 10 then Char.ofNat (48 + n) else Char.ofNat (87 + n)

/-- Lowercase hex encoding of a byte string (`bytes.hex()`). -/
def hexOfBytes (bs : List Nat) : Str :=
  bs.foldr (fun b acc => hexDigit (b / 16) :: hexDigit (b % 16) :: acc) []

/-- `hashlib.blake2b(data, digest_size=n).digest()` for unkeyed hashing. -/
def digest (n : Nat) (data : List Nat) : List Nat :=
  let h0 := setNth IV 0 ((nth IV 0).xor (0x01010000 + n))
  outBytes (loop h0 data 0) n

/-- `hashlib.blake2b(data, digest_size=n).hexdigest()`. -/
def hexdigest (n : Nat) (data : List Nat) : Str :=
  hexOfBytes (digest n data)

end Blake2b

/-! ## UTF-8 (`str.encode('utf-8')` / `bytes.decode('utf-8')`) -/

/-- UTF-8 encoding of a single Unicode scalar value. -/
def utf8EncodeChar (c : Char) : Bytes :=
  let n := c.toNat
  if n < 0x80 then [n]
  else if n < 0x800 then [0xC0 + n / 64, 0x80 + n % 64]
  else if n < 0x10000 then
    [0xE0 + n / 4096, 0x80 + n / 64 % 64, 0x80 + n % 64]
  else
    [0xF0 + n / 262144, 0x80 + n / 4096 % 64, 0x80 + n / 64 % 64, 0x80 + n % 64]

/-- `str.encode('utf-8')`. -/
def utf8Encode (s : Str) : Bytes :=
  s.foldr (fun c acc => utf8EncodeChar c ++ acc) []

/-- One UTF-8 scalar value at the head of a byte string: the decoded
code point and the number of bytes it occupies; `none` on malformed
input. Continuation bytes are fetched with a default of 0, which fails
the continuation-byte range check, so truncated sequences are
rejected. -/
def utf8DecodeOne (bs : Bytes) : Option (Nat × Nat) :=
  match bs with
  | [] => none
  | b0 :: rest =>
    if b0 < 0x80 then some (b0, 1)
    else if 0xC0 ≤ b0 ∧ b0 < 0xE0 then
      let b1 := rest.getD 0 0
      if (0x80 ≤ b1 ∧ b1 < 0xC0) ∧ 0x80 ≤ (b0 - 0xC0) * 64 + (b1 - 0x80) then
        some ((b0 - 0xC0) * 64 + (b1 - 0x80), 2)
      else none
    else if 0xE0 ≤ b0 ∧ b0 < 0xF0 then
      let b1 := rest.getD 0 0
      let b2 := rest.getD 1 0
      let n := (b0 - 0xE0) * 4096 + (b1 - 0x80) * 64 + (b2 - 0x80)
      if ((0x80 ≤ b1 ∧ b1 < 0xC0) ∧ (0x80 ≤ b2 ∧ b2 < 0xC0)) ∧
          0x800 ≤ n ∧ ¬ (0xD800 ≤ n ∧ n < 0xE000) then
        some (n, 3)
      else none
    else if 0xF0 ≤ b0 ∧ b0 < 0xF8 then
      let b1 := rest.getD 0 0
      let b2 := rest.getD 1 0
      let b3 := rest.getD 2 0
      let n := (b0 - 0xF0) * 262144 + (b1 - 0x80) * 4096 + (b2 - 0x80) * 64 +
        (b3 - 0x80)
      if ((0x80 ≤ b1 ∧ b1 < 0xC0) ∧ (0x80 ≤ b2 ∧ b2 < 0xC0) ∧
          (0x80 ≤ b3 ∧ b3 < 0xC0)) ∧ 0x10000 ≤ n ∧ n < 0x110000 then
        some (n, 4)
      else none
    else none

/-- Decode UTF-8 scalar values one at a time; the fuel is an upper bound
on the number of scalar values and makes the recursion structural. -/
def utf8DecodeAux : Nat → Bytes → Option Str
  | _, [] => some []
  | 0, _ :: _ => none
  | fuel + 1, b0 :: rest =>
    match utf8DecodeOne (b0 :: rest) with
    | some (n, k) =>
      (utf8DecodeAux fuel ((b0 :: rest).drop k)).map fun s => Char.ofNat n :: s
    | none => none

/-- `bytes.decode('utf-8')`: `none` models `UnicodeDecodeError`. Each
scalar value occupies at least one byte, so the byte length is enough
fuel. -/
def utf8Decode (bs : Bytes) : Option Str :=
  utf8DecodeAux bs.length bs

/-! ## `calculate_data_id` (`boxs/box.py`, `datastock/stock.py`) -/

/-- Python's `':'.join`. -/
def joinColon : List Str → Str
  | [] => []
  | [s] => s
  | s :: rest => s ++ ':' :: joinColon rest

/-- Python's `sorted` on a list of strings (ascending lexicographic order
on code points). -/
def pySorted (l : List Str) : List Str :=
  l.insertionSort (· ≤ ·)

/-- The pre-hash string `id_origin_data` built inside `calculate_data_id`:
origin and the sorted parent ids joined with `':'`. -/
def idOriginData (origin : Str) (parent_ids : List Str) : Str :=
  joinColon (origin :: pySorted parent_ids)

/-- `calculate_data_id(origin, parent_ids)`: the blake2b digest (8 bytes,
hex-encoded) of the UTF-8 bytes of `id_origin_data`. -/
def calculate_data_id (origin : Str) (parent_ids : List Str) : Str :=
  Blake2b.hexdigest 8 (utf8Encode (idOriginData origin parent_ids))

/-! ## Errors (`boxs/errors.py`, `datastock/errors.py`, Python builtins) -/

/-- The errors raised by the embedded code: the repository's own error
classes plus the Python builtins it lets escape. -/
inductive PyError
  | dataCollision (owner_id data_id run_id : Str)
  | dataNotFound (owner_id data_id run_id : Str)
  | missingValueType
  | valueError (msg : Str)
  | keyError (msg : Str)
  | fileExistsError
  | lookupError (msg : Str)
  | unicodeDecodeError
deriving DecidableEq, Repr

/-! ## Origins (`boxs/origin.py`) -/

/-- What an origin argument resolves to: a string or Python None. -/
inductive OriginResult
  | str (s : Str)
  | pyNone
deriving DecidableEq, Repr

/-- The origin argument of store: a plain value or a zero-argument
callable. -/
inductive OriginArg
  | value (v : OriginResult)
  | callable (f : Unit → OriginResult)

/-- determine_origin: invoke the argument if it is callable, then fail
with ValueError if the resolved origin is None. -/
def determine_origin (origin : OriginArg) : Except PyError Str :=
  let resolved := match origin with
    | .callable f => f ()
    | .value v => v
  match resolved with
  | .pyNone => .error (.valueError "No origin given".data)
  | .str s => .ok s

/-! ## Data model (`datastock/data.py`) -/

/-- DataRef: the immutable triple identifying one stored item. -/
structure DataRef where
  data_id : Str
  stock_id : Str
  run_id : Str
deriving DecidableEq, Repr

/-- Values storable in the meta dict (JSON-serializable scalars suffice
for the embedded code paths). -/
inductive MetaVal
  | s (v : Str)
  | i (v : Int)
deriving DecidableEq, Repr

/-- DataInfo (DataItem): the persisted record of a stored item, with the
full parent records nested recursively. -/
inductive DataInfo
  | mk (ref : DataRef) (origin : Str) (parents : List DataInfo)
       (name : Option Str) (tags : Dict Str) (meta : Dict MetaVal)

/-- The reference of a record. -/
def DataInfo.ref : DataInfo → DataRef
  | .mk r _ _ _ _ _ => r

/-- The origin of a record. -/
def DataInfo.origin : DataInfo → Str
  | .mk _ o _ _ _ _ => o

/-- The parent records. -/
def DataInfo.parents : DataInfo → List DataInfo
  | .mk _ _ p _ _ _ => p

/-- The optional user-defined name. -/
def DataInfo.name : DataInfo → Option Str
  | .mk _ _ _ n _ _ => n

/-- The tags dict. -/
def DataInfo.tags : DataInfo → Dict Str
  | .mk _ _ _ _ t _ => t

/-- The meta dict. -/
def DataInfo.meta : DataInfo → Dict MetaVal
  | .mk _ _ _ _ _ m => m

/-- The data_id of a record, via its ref. -/
def DataInfo.data_id (d : DataInfo) : Str := d.ref.data_id

/-! ## Backend state and events

The storage backend is modelled in memory, keyed like the filesystem
backend by (data_id, run_id); exists is presence of the persisted info
(the backend checks the .info file). Backend interactions are logged as
events so that claims about which interactions happen are expressible. -/

/-- Backend interactions of one store or load call. -/
inductive Event
  | writerCreated (data_id run_id : Str)
  | contentWritten (data_id run_id : Str)
  | infoWritten (data_id run_id : Str)
  | readerCreated (data_id run_id : Str)
  | contentRead (data_id run_id : Str)
deriving DecidableEq, Repr

/-- The persisted backend state: data files and info files keyed by
(data_id, run_id). -/
structure MemState where
  dataFiles : List ((Str × Str) × Bytes)
  infoFiles : List ((Str × Str) × DataInfo)

/-- Storage.exists: a (data_id, run_id) key exists when its info has been
persisted (the filesystem backend checks the .info file). -/
def memExists (st : MemState) (data_id run_id : Str) : Bool :=
  (kvGet st.infoFiles (data_id, run_id)).isSome

/-- Backend state paired with the event log of the current call. -/
abbrev Eff := MemState × List Event

/-- A Writer: the object store hands to transformers and the data input;
its methods are state transformers over the backend. -/
structure StoreWriter where
  data_id : Str
  run_id : Str
  writeContent : Bytes → Eff → Eff
  writeInfo : DataInfo → Eff → Eff

/-- A Reader: the object load hands to transformers and the data output. -/
structure StoreReader where
  data_id : Str
  run_id : Str
  readContent : MemState → List Event → Bytes × List Event

/-- The backend's writer for a key: streams content into the data file,
persists the info record into the info file. -/
def baseWriter (d r : Str) : StoreWriter where
  data_id := d
  run_id := r
  writeContent := fun content eff =>
    ({ eff.1 with dataFiles := kvSet eff.1.dataFiles (d, r) content },
     eff.2 ++ [.contentWritten d r])
  writeInfo := fun info eff =>
    ({ eff.1 with infoFiles := kvSet eff.1.infoFiles (d, r) info },
     eff.2 ++ [.infoWritten d r])

/-- The backend's reader for a key: reads the data file content. -/
def baseReader (d r : Str) : StoreReader where
  data_id := d
  run_id := r
  readContent := fun st ev =>
    ((kvGet st.dataFiles (d, r)).getD [], ev ++ [.contentRead d r])

/-! ## Transformers (`datastock/storage.py`, `boxs/storage.py`) -/

/-- A Transformer: may substitute the writer and the reader with
decorating ones; the default is the identity. -/
structure TransformerC (W R : Type) where
  transform_writer : W → W := id
  transform_reader : R → R := id

/-- The writer chain built by store: the backend writer passed through
each transformer's transform_writer in registration order. -/
def storeWriterChain (ts : List (TransformerC W R)) (w : W) : W :=
  ts.foldl (fun acc t => t.transform_writer acc) w

/-- The reader chain built by load: the backend reader passed through
each transformer's transform_reader in reverse registration order. -/
def loadReaderChain (ts : List (TransformerC W R)) (r : R) : R :=
  ts.reverse.foldl (fun acc t => t.transform_reader acc) r

/-- Decorator nesting made observable: a base object under labelled
wrapping layers. -/
inductive Layered
  | base
  | wrap (label : Nat) (inner : Layered)
deriving DecidableEq, Repr

/-- A transformer whose writer and reader decorations add a labelled
layer, making the wrapping order visible. -/
def labelTransformer (i : Nat) : TransformerC Layered Layered where
  transform_writer := .wrap i
  transform_reader := .wrap i

/-- The label of the outermost layer, the one facing the caller. -/
def Layered.outerLabel : Layered → Option Nat
  | .base => none
  | .wrap i _ => some i

/-- The label of the innermost layer, the one facing the backend. -/
def Layered.innerLabel : Layered → Option Nat
  | .base => none
  | .wrap i .base => some i
  | .wrap _ (.wrap j w) => Layered.innerLabel (.wrap j w)

/-! ## The Stock orchestrator (`datastock/stock.py`) -/

/-- Stock.store: resolve the origin, derive the data id, default the run
id, fail on collision, then create a writer, wrap it through the
transformers in registration order, stream the content and persist the
info record. The data input is modelled by the bytes it streams, the
process-wide current run id by an explicit argument. -/
def Stock.store (stock_id : Str) (transformers : List (TransformerC StoreWriter StoreReader))
    (st : MemState) (content : Bytes) (parents : List DataInfo)
    (origin : OriginArg) (name : Option Str) (tags : Option (Dict Str))
    (meta : Option (Dict MetaVal)) (run_id : Option Str) (current_run_id : Str) :
    Except PyError DataInfo × MemState × List Event :=
  let tags := tags.getD []
  let meta := meta.getD []
  match determine_origin origin with
  | .error e => (.error e, st, [])
  | .ok origin =>
    let data_id := calculate_data_id origin (parents.map DataInfo.data_id)
    let run_id := run_id.getD current_run_id
    if memExists st data_id run_id then
      (.error (.dataCollision stock_id data_id run_id), st, [])
    else
      let ref : DataRef := ⟨data_id, stock_id, run_id⟩
      let writer := storeWriterChain transformers (baseWriter data_id run_id)
      let eff := writer.writeContent content (st, [.writerCreated data_id run_id])
      let data : DataInfo := .mk ref origin parents name tags meta
      let eff := writer.writeInfo data eff
      (.ok data, eff)

/-- Stock.load: reject refs of a different stock, fail NotFound when the
backend reports the key absent, otherwise create a reader, wrap it
through the transformers in reverse registration order and read the
content. -/
def Stock.load (stock_id : Str) (transformers : List (TransformerC StoreWriter StoreReader))
    (st : MemState) (data_ref : DataRef) :
    Except PyError Bytes × List Event :=
  if data_ref.stock_id ≠ stock_id then
    (.error (.valueError "Data references different stock id".data), [])
  else if ¬ memExists st data_ref.data_id data_ref.run_id then
    (.error (.dataNotFound stock_id data_ref.data_id data_ref.run_id), [])
  else
    let reader := loadReaderChain transformers (baseReader data_ref.data_id data_ref.run_id)
    let (content, ev) :=
      reader.readContent st [.readerCreated data_ref.data_id data_ref.run_id]
    (.ok content, ev)

/-! ## UTF-16 (Python codec 'utf-16': BOM plus platform little-endian) -/

/-- UTF-16 little-endian code units (as bytes) for one scalar value:
one unit below 0x10000, a surrogate pair above. -/
def utf16EncodeChar (c : Char) : Bytes :=
  let n := c.toNat
  if n < 0x10000 then [n % 256, n / 256]
  else
    let v := n - 0x10000
    let hi := 0xD800 + v / 1024
    let lo := 0xDC00 + v % 1024
    [hi % 256, hi / 256, lo % 256, lo / 256]

/-- Python str.encode with the 'utf-16' codec: the little-endian byte
order mark followed by little-endian code units. -/
def utf16Encode (s : Str) : Bytes :=
  0xFF :: 0xFE :: s.foldr (fun c acc => utf16EncodeChar c ++ acc) []

/-- One scalar value at the head of little-endian UTF-16 data: the
decoded code point and the number of bytes it occupies (2 or 4);
`none` models `UnicodeDecodeError` on truncated data or stray
surrogates. -/
def utf16DecodeOne (bs : Bytes) : Option (Nat × Nat) :=
  match bs with
  | b0 :: b1 :: rest =>
    let u := b0 + 256 * b1
    if u < 0xD800 ∨ 0xE000 ≤ u then some (u, 2)
    else if u < 0xDC00 then
      let u2 := rest.getD 0 0 + 256 * rest.getD 1 0
      if 0xDC00 ≤ u2 ∧ u2 < 0xE000 then
        some (0x10000 + (u - 0xD800) * 1024 + (u2 - 0xDC00), 4)
      else none
    else none
  | _ => none

/-- Decode little-endian UTF-16 code units one scalar value at a time;
the fuel is an upper bound on the number of scalar values. -/
def utf16DecodeAuxLE : Nat → Bytes → Option Str
  | _, [] => some []
  | 0, _ :: _ => none
  | fuel + 1, b0 :: rest =>
    match utf16DecodeOne (b0 :: rest) with
    | some (u, k) =>
      (utf16DecodeAuxLE fuel ((b0 :: rest).drop k)).map fun s => Char.ofNat u :: s
    | none => none

/-- Decode little-endian UTF-16 code units. -/
def utf16DecodeLE (bs : Bytes) : Option Str :=
  utf16DecodeAuxLE bs.length bs

/-- Swap adjacent byte pairs (big-endian units to little-endian). -/
def swapPairs : Bytes → Bytes
  | b0 :: b1 :: rest => b1 :: b0 :: swapPairs rest
  | bs => bs

/-- Python bytes.decode with the 'utf-16' codec: a byte order mark picks
the endianness, without one the platform order (little-endian) is used. -/
def utf16Decode (bs : Bytes) : Option Str :=
  if bs.take 2 = [0xFF, 0xFE] then utf16DecodeLE (bs.drop 2)
  else if bs.take 2 = [0xFE, 0xFF] then utf16DecodeLE (swapPairs (bs.drop 2))
  else utf16DecodeLE bs

/-! ## The Python codec registry, restricted to the encodings the
repository exercises ('utf-8' and 'utf-16'). -/

/-- str.encode(encoding): unknown encodings raise LookupError. -/
def pyEncode (encoding : Str) (s : Str) : Except PyError Bytes :=
  if encoding = "utf-8".data then .ok (utf8Encode s)
  else if encoding = "utf-16".data then .ok (utf16Encode s)
  else .error (.lookupError "unknown encoding".data)

/-- bytes.decode(encoding): decoding failures raise UnicodeDecodeError. -/
def pyDecode (encoding : Str) (bs : Bytes) : Except PyError Str :=
  if encoding = "utf-8".data then
    match utf8Decode bs with
    | some s => .ok s
    | none => .error .unicodeDecodeError
  else if encoding = "utf-16".data then
    match utf16Decode bs with
    | some s => .ok s
    | none => .error .unicodeDecodeError
  else .error (.lookupError "unknown encoding".data)

/-- io.TextIOWrapper with the default newline=None reads in
universal-newlines mode: a '\r\n' pair and a lone '\r' both come back as
'\n'. -/
def translateNewlines : Str → Str
  | [] => []
  | [c] => if c = '\r' then ['\n'] else [c]
  | c₁ :: c₂ :: rest =>
    if c₁ = '\r' then
      if c₂ = '\n' then '\n' :: translateNewlines rest
      else '\n' :: translateNewlines (c₂ :: rest)
    else c₁ :: translateNewlines (c₂ :: rest)

/-! ## Value types (`boxs/value_types.py`)

Writers and readers at the value-codec level are modelled by the byte
content of their stream together with their meta dict; a reader created
on stored data sees the content and meta the writer left behind. -/

/-- A writer as a value type sees it: stream content plus meta. -/
structure WriterV where
  content : Bytes
  meta : Dict MetaVal
deriving Repr

/-- A reader as a value type sees it: persisted content plus meta. -/
structure ReaderV where
  content : Bytes
  meta : Dict MetaVal
deriving Repr

/-- Reading back what a writer stored: the persisted content and meta. -/
def readerOfWriter (w : WriterV) : ReaderV := ⟨w.content, w.meta⟩

namespace BytesValueType

/-- BytesValueType.supports: bytes and bytearray values. -/
def write_value_to_writer (value : Bytes) (w : WriterV) : WriterV :=
  { w with content := value }

/-- BytesValueType.read_value_from_reader: read the whole stream. -/
def read_value_from_reader (rd : ReaderV) : Bytes :=
  rd.content

end BytesValueType

/-- StringValueType: strings encoded with a configurable default
encoding. -/
structure StringValueType where
  default_encoding : Str := "utf-8".data
deriving DecidableEq, Repr

namespace StringValueType

/-- Write: encode with the default encoding, record the encoding in the
writer meta, stream the bytes. -/
def write_value_to_writer (vt : StringValueType) (value : Str) (w : WriterV) :
    Except PyError WriterV := do
  let bs ← pyEncode vt.default_encoding value
  .ok { content := bs,
        meta := PyDict.set w.meta "encoding".data (.s vt.default_encoding) }

/-- Read: decode the stream with the encoding found in the persisted
meta, falling back to the default encoding; the io.TextIOWrapper reading
the stream translates newlines universally. -/
def read_value_from_reader (vt : StringValueType) (rd : ReaderV) :
    Except PyError Str :=
  let encoding := match PyDict.get rd.meta "encoding".data with
    | some (.s e) => e
    | _ => vt.default_encoding
  (pyDecode encoding rd.content).map translateNewlines

/-- The parameter string of a StringValueType is its encoding. -/
def parameter_string (vt : StringValueType) : Str := vt.default_encoding

/-- get_specification: module, class and parameter string joined with
colons. -/
def get_specification (vt : StringValueType) : Str :=
  joinColon ["boxs.value_types".data, "StringValueType".data, vt.parameter_string]

end StringValueType

/-- Split at the first occurrence of a character: the part before it and
the part after it, or `none` when it does not occur. -/
def splitFirst (c : Char) : Str → Option (Str × Str)
  | [] => none
  | x :: xs =>
    if x = c then some ([], xs)
    else (splitFirst c xs).map fun p => (x :: p.1, p.2)

/-- Python split(':', maxsplit=2) for a specification string, as the
triple it unpacks into; `none` models the unpacking ValueError. -/
def splitColon2 (s : Str) : Option (Str × Str × Str) :=
  match splitFirst ':' s with
  | none => none
  | some (m, rest) =>
    match splitFirst ':' rest with
    | none => none
    | some (c, p) => some (m, c, p)

/-- A live value type instance, as `from_specification` can produce it. -/
inductive ValueTypeInst
  | bytesVT
  | streamVT
  | stringVT (vt : StringValueType)
  | fileVT
  | jsonVT
deriving DecidableEq, Repr

/-- ValueType.from_specification: split the specification into module,
class and parameter string and rebuild the class from its parameters
(the dynamic import resolves inside `boxs.value_types`). -/
def ValueType.from_specification (spec : Str) : Except PyError ValueTypeInst :=
  match splitColon2 spec with
  | none => .error (.valueError "not enough values to unpack".data)
  | some (m, c, p) =>
    if m = "boxs.value_types".data then
      if c = "StringValueType".data then .ok (.stringVT ⟨p⟩)
      else if c = "BytesValueType".data then .ok .bytesVT
      else if c = "StreamValueType".data then .ok .streamVT
      else if c = "FileValueType".data then .ok .fileVT
      else if c = "JsonValueType".data then .ok .jsonVT
      else .error (.lookupError "unknown class".data)
    else .error (.lookupError "unknown module".data)

/-! ## Filesystem backend (`boxs/filesystem.py`)

Paths are lists of components below the storage root. The directory tree
is modelled as a map from paths to nodes; directory creation with
existing parents is a no-op and is not tracked. -/

/-- A path below the root directory, as its components. -/
abbrev FPath := List Str

/-- A filesystem node: a data file, a persisted info record, an empty
run marker file, or a symbolic link. -/
inductive FNode
  | dataFile (content : Bytes)
  | infoFile (record : DataInfo)
  | marker
  | symlink (target : FPath)

/-- The filesystem: existing paths and their nodes. -/
structure FS where
  files : List (FPath × FNode)

/-- The node at a path, if the path exists. -/
def FS.lookup (fs : FS) (p : FPath) : Option FNode :=
  kvGet fs.files p

/-- Write (create or overwrite) a node at a path. -/
def FS.write (fs : FS) (p : FPath) (n : FNode) : FS :=
  ⟨kvSet fs.files p n⟩

/-- path.symlink_to(target): fails with FileExistsError when the path
already exists. -/
def FS.symlinkTo (fs : FS) (p : FPath) (target : FPath) : Except PyError FS :=
  if (fs.lookup p).isSome then .error .fileExistsError
  else .ok (fs.write p (.symlink target))

/-- path.unlink(): remove the entry at a path. -/
def FS.unlink (fs : FS) (p : FPath) : FS :=
  ⟨fs.files.filter fun kv => kv.1 ≠ p⟩

/-- The _FileSystemWriter: the data ref with its name and tags, and the
three paths it writes, plus the writer-local meta dict. -/
structure FileSystemWriter where
  data_ref : DataRef
  name : Option Str
  tags : Dict Str
  data_file : FPath
  info_file : FPath
  run_file : FPath
  meta : Dict MetaVal

/-- The directory of a path. -/
def FPath.parent (p : FPath) : FPath := p.dropLast

/-- _FileSystemWriter.write_info: merge the caller meta with the
writer-local meta (writer-local wins), build the record, persist it at
the info path, touch the run marker file, and for a named item create
the name symlink in the run-local _named directory. -/
def FileSystemWriter.write_info (w : FileSystemWriter) (origin : Str)
    (parents : List DataInfo) (meta : Dict MetaVal) (fs : FS) :
    Except PyError (DataInfo × FS) := do
  let meta := PyDict.update meta w.meta
  let data_info : DataInfo := .mk w.data_ref origin parents w.name w.tags meta
  let fs := fs.write w.info_file (.infoFile data_info)
  let run_dir := w.run_file.parent
  let fs := fs.write w.run_file .marker
  match w.name with
  | some n =>
    let fs ← fs.symlinkTo (run_dir ++ ["_named".data, n]) w.run_file
    .ok (data_info, fs)
  | none => .ok (data_info, fs)

/-! ## Run naming (`FileSystemStorage.set_run_name` and helpers)

The global runs/_named directory holds one symlink per run name whose
target is the run directory; it is modelled by its directory listing:
symlink file names paired with the run id their target resolves to. -/

/-- The runs/_named directory listing: symlink name, target run id. -/
structure NamesDir where
  entries : List (Str × Str)

/-- _get_run_names: scan the name directory, resolving each symlink to
the run it targets; two names for one run raise KeyError. -/
def getRunNames (entries : List (Str × Str)) : Except PyError (Dict Str) :=
  entries.foldlM
    (fun acc nm_rid =>
      if (PyDict.get acc nm_rid.2).isSome then
        .error (.keyError "Multiple names for single run".data)
      else .ok (PyDict.set acc nm_rid.2 nm_rid.1))
    []

/-- Remove the first entry with the given symlink file name
(the unlink of one directory entry). -/
def NamesDir.unlinkName (d : NamesDir) (nm : Str) : NamesDir :=
  ⟨d.entries.filter fun e => e.1 ≠ nm⟩

/-- _remove_name_for_run: reverse-look up the name of the run in the
name directory and unlink its symlink when there is one. -/
def NamesDir.removeNameForRun (d : NamesDir) (run_id : Str) :
    Except PyError NamesDir := do
  let run_names ← getRunNames d.entries
  match PyDict.get run_names run_id with
  | some nm => .ok (d.unlinkName nm)
  | none => .ok d

/-- _set_name_for_run_path: create the name symlink pointing at the run
directory; an existing path raises FileExistsError. -/
def NamesDir.setNameForRun (d : NamesDir) (nm : Str) (run_id : Str) :
    Except PyError NamesDir :=
  if (d.entries.lookup nm).isSome then .error .fileExistsError
  else .ok ⟨d.entries ++ [(nm, run_id)]⟩

/-- set_run_name: remove any existing name symlink of the run, then
create a new one only when the name is non-null; returns the new
directory state and the run's resolved name as _create_run_from_run_path
reports it. -/
def set_run_name (d : NamesDir) (run_id : Str) (name : Option Str) :
    Except PyError (NamesDir × Option Str) := do
  let d ← d.removeNameForRun run_id
  let d ← match name with
    | some nm => d.setNameForRun nm run_id
    | none => .ok d
  let run_names ← getRunNames d.entries
  .ok (d, PyDict.get run_names run_id)

/-- The names currently naming a run: the symlink file names of the
entries targeting its run directory. -/
def NamesDir.namesOf (d : NamesDir) (run_id : Str) : List Str :=
  (d.entries.filter fun e => e.2 = run_id).map Prod.fst

/-! ## DataRef URIs (`datastock/data.py`, `urllib.parse`)

The URI round trip goes through Python's urlparse; the relevant part of
urllib.parse (unsafe-byte removal, strip, scheme, netloc, fragment and
query splitting, path parameters and the lowercased hostname) is
modelled here. -/

/-- The last path segment (after the last slash; the path itself when it
has no slash). -/
def lastSegment (p : Str) : Str :=
  (p.reverse.takeWhile (· ≠ '/')).reverse

/-- urllib.parse._splitparams: cut the path at the first ';' inside its
last segment. -/
def splitParams (p : Str) : Str :=
  if ';' ∈ p then
    if '/' ∈ p then
      let seg := lastSegment p
      match splitFirst ';' seg with
      | some (pre, _) => (p.reverse.dropWhile (· ≠ '/')).reverse ++ pre
      | none => p
    else
      match splitFirst ';' p with
      | some (pre, _) => pre
      | none => p
  else p

/-- A Python value passed to Box.store, by the properties the built-in
value types inspect (stream and file values carry the bytes they
provide). -/
inductive PyValue
  | bytes (b : Bytes)
  | bytearray (b : Bytes)
  | ioStream (b : Bytes)
  | str (s : Str)
  | path (content : Bytes) (isExisting : Bool) (isRegularFile : Bool)
  | other
deriving DecidableEq, Repr

/-- The four built-in value types a Box configures. -/
inductive VT
  | bytesVT
  | streamVT
  | stringVT
  | fileVT
deriving DecidableEq, Repr

/-- supports, per value type: bytes/bytearray for BytesValueType, io
streams for StreamValueType, str for StringValueType, existing regular
files for FileValueType. -/
def VT.supports : VT → PyValue → Bool
  | .bytesVT, .bytes _ => true
  | .bytesVT, .bytearray _ => true
  | .streamVT, .ioStream _ => true
  | .stringVT, .str _ => true
  | .fileVT, .path _ isExisting isRegularFile => isExisting && isRegularFile
  | _, _ => false

/-- The value types a Box is configured with, in order. -/
def Box.value_types : List VT := [.bytesVT, .streamVT, .stringVT, .fileVT]

/-- The selection loop of Box.store for value_type=None: try each
configured value type in order and keep the one that supports the value,
later matches overwriting earlier ones. -/
def selectValueType (value : PyValue) : Option VT :=
  Box.value_types.foldl (fun acc vt => if vt.supports value then some vt else acc) none

/-- The bytes a value type streams for a value (strings use the default
utf-8 encoding). -/
def VT.valueContent : VT → PyValue → Bytes
  | .bytesVT, .bytes b => b
  | .bytesVT, .bytearray b => b
  | .streamVT, .ioStream b => b
  | .stringVT, .str s => utf8Encode s
  | .fileVT, .path c _ _ => c
  | _, _ => []

/-- Box.store: like Stock.store but with value types: after the writer is
built, a missing value_type argument is filled by the selection loop and
a value no configured value type supports raises MissingValueType before
anything is written. -/
def Box.store (box_id : Str) (transformers : List (TransformerC StoreWriter StoreReader))
    (st : MemState) (value : PyValue) (parents : List DataInfo)
    (origin : OriginArg) (name : Option Str) (tags : Option (Dict Str))
    (meta : Option (Dict MetaVal)) (value_type : Option VT)
    (run_id : Option Str) (current_run_id : Str) :
    Except PyError DataInfo × MemState × List Event :=
  let tags := tags.getD []
  let meta := meta.getD []
  match determine_origin origin with
  | .error e => (.error e, st, [])
  | .ok origin =>
    let data_id := calculate_data_id origin (parents.map DataInfo.data_id)
    let run_id := run_id.getD current_run_id
    if memExists st data_id run_id then
      (.error (.dataCollision box_id data_id run_id), st, [])
    else
      let ref : DataRef := ⟨data_id, box_id, run_id⟩
      let writer := storeWriterChain transformers (baseWriter data_id run_id)
      let value_type := match value_type with
        | none => selectValueType value
        | some vt => some vt
      match value_type with
      | none => (.error .missingValueType, st, [.writerCreated data_id run_id])
      | some vt =>
        let eff := writer.writeContent (vt.valueContent value)
          (st, [.writerCreated data_id run_id])
        let data : DataInfo := .mk ref origin parents name tags meta
        let eff := writer.writeInfo data eff
        (.ok data, eff)

/-- Whether a store result is the collision error. -/
def isDataCollision : Except PyError α → Bool
  | .error (.dataCollision _ _ _) => true
  | _ => false

/-- The data id of a successful store result. -/
def resultDataId : Except PyError DataInfo → Option Str
  | .ok i => some i.data_id
  | .error _ => none

/-!
# Theorems

Helper lemmas first, then one theorem per claim (with witness or
counterexample theorems where required).
-/

theorem kvGet_kvSet_self [DecidableEq κ] (d : List (κ × α)) (k : κ) (v : α) :
    kvGet (kvSet d k v) k = some v := by
  induction d with
  | nil => simp [kvSet, kvGet]
  | cons kv rest ih =>
    obtain ⟨k', v'⟩ := kv
    by_cases h : k' = k
    · simp [kvSet, kvGet, h]
    · simp [kvSet, kvGet, h, ih]

theorem kvGet_kvSet_ne [DecidableEq κ] (d : List (κ × α)) (k' k : κ) (v : α)
    (h : k' ≠ k) : kvGet (kvSet d k' v) k = kvGet d k := by
  induction d with
  | nil => simp [kvSet, kvGet, h]
  | cons kv rest ih =>
    obtain ⟨k₀, v₀⟩ := kv
    by_cases h₀ : k₀ = k'
    · subst h₀
      simp [kvSet, kvGet, h]
    · simp only [kvSet, if_neg h₀]
      by_cases h₁ : k₀ = k <;> simp [kvGet, h₁, ih]

theorem kvGet_eq_none_of_not_mem [DecidableEq κ] (d : List (κ × α)) (k : κ)
    (h : k ∉ d.map Prod.fst) : kvGet d k = none := by
  induction d with
  | nil => rfl
  | cons kv rest ih =>
    simp only [List.map_cons, List.mem_cons] at h
    push_neg at h
    simp [kvGet, Ne.symm h.1, ih h.2]

/-- C4 helper: the empty backend state. -/
theorem memExists_empty (d r : Str) : memExists ⟨[], []⟩ d r = false := rfl

/-- Claim C4: for every reference whose store id equals the invoked
store's id but whose (data_id, run_id) key the backend reports as
absent, load fails with DataNotFound, and no reader is created and no
content is read (the event trace is empty). -/
theorem claim_C4 (stock_id : Str) (ts : List (TransformerC StoreWriter StoreReader))
    (st : MemState) (ref : DataRef)
    (hsid : ref.stock_id = stock_id)
    (habsent : memExists st ref.data_id ref.run_id = false) :
    Stock.load stock_id ts st ref =
      (.error (.dataNotFound stock_id ref.data_id ref.run_id), []) := by
  simp [Stock.load, hsid, habsent]

/-- Witness for C4 at a concrete never-stored reference. -/
theorem claim_C4_witness :
    Stock.load "stock".data [] ⟨[], []⟩ ⟨"d".data, "stock".data, "r".data⟩ =
      (.error (.dataNotFound "stock".data "d".data "r".data), []) :=
  claim_C4 "stock".data [] ⟨[], []⟩ ⟨"d".data, "stock".data, "r".data⟩ rfl rfl

/-- Claim C2: store raises DataCollision, touching neither the state nor
the backend (empty trace, so no writer is created and nothing is
overwritten), exactly when the backend reports the derived key present;
an absent key never yields a collision error; and the same origin and
parents stored under a different run id succeed with the same data id. -/
theorem claim_C2 (stock_id : Str) (ts : List (TransformerC StoreWriter StoreReader))
    (st : MemState) (content content₂ : Bytes) (parents : List DataInfo)
    (o : Str) (name : Option Str) (tags : Option (Dict Str))
    (meta : Option (Dict MetaVal)) (r r₁ r₂ cur : Str) (d : Str)
    (hd : d = calculate_data_id o (parents.map DataInfo.data_id)) :
    (memExists st d r = true →
      Stock.store stock_id ts st content parents (.value (.str o)) name tags meta
          (some r) cur =
        (.error (.dataCollision stock_id d r), st, [])) ∧
    (memExists st d r = false →
      isDataCollision (Stock.store stock_id ts st content parents (.value (.str o))
        name tags meta (some r) cur).1 = false) ∧
    (memExists st d r₁ = false → memExists st d r₂ = false → r₁ ≠ r₂ →
      (Stock.store stock_id [] st content parents (.value (.str o)) name tags meta
          (some r₁) cur).1.isOk = true ∧
      resultDataId (Stock.store stock_id [] st content parents (.value (.str o))
          name tags meta (some r₁) cur).1 = some d ∧
      (Stock.store stock_id [] ((Stock.store stock_id [] st content parents
            (.value (.str o)) name tags meta (some r₁) cur).2.1) content₂ parents
          (.value (.str o)) name tags meta (some r₂) cur).1.isOk = true ∧
      resultDataId (Stock.store stock_id [] ((Stock.store stock_id [] st content
            parents (.value (.str o)) name tags meta (some r₁) cur).2.1) content₂
          parents (.value (.str o)) name tags meta (some r₂) cur).1 = some d) := by
  subst hd
  refine ⟨fun hmem => ?_, fun hmem => ?_, fun h₁ h₂ hne => ?_⟩
  · simp [Stock.store, determine_origin, hmem]
  · simp [Stock.store, determine_origin, hmem, isDataCollision]
  · have hstore₁ :
        Stock.store stock_id [] st content parents (.value (.str o)) name tags meta
          (some r₁) cur =
        (.ok (.mk ⟨calculate_data_id o (parents.map DataInfo.data_id), stock_id, r₁⟩
            o parents name (tags.getD []) (meta.getD [])),
         ⟨kvSet st.dataFiles (calculate_data_id o (parents.map DataInfo.data_id), r₁)
            content,
          kvSet st.infoFiles (calculate_data_id o (parents.map DataInfo.data_id), r₁)
            (.mk ⟨calculate_data_id o (parents.map DataInfo.data_id), stock_id, r₁⟩
              o parents name (tags.getD []) (meta.getD []))⟩,
         [.writerCreated (calculate_data_id o (parents.map DataInfo.data_id)) r₁,
          .contentWritten (calculate_data_id o (parents.map DataInfo.data_id)) r₁,
          .infoWritten (calculate_data_id o (parents.map DataInfo.data_id)) r₁]) := by
      simp [Stock.store, determine_origin, h₁, storeWriterChain, baseWriter]
    have hpair : ((calculate_data_id o (parents.map DataInfo.data_id), r₁) : Str × Str) ≠
        (calculate_data_id o (parents.map DataInfo.data_id), r₂) := by
      intro hc
      exact hne (congrArg Prod.snd hc)
    have hmem₂ : memExists
        ⟨kvSet st.dataFiles (calculate_data_id o (parents.map DataInfo.data_id), r₁)
            content,
          kvSet st.infoFiles (calculate_data_id o (parents.map DataInfo.data_id), r₁)
            (.mk ⟨calculate_data_id o (parents.map DataInfo.data_id), stock_id, r₁⟩
              o parents name (tags.getD []) (meta.getD []))⟩
        (calculate_data_id o (parents.map DataInfo.data_id)) r₂ = false := by
      simp only [memExists]
      rw [kvGet_kvSet_ne _ _ _ _ hpair]
      simpa [memExists] using h₂
    refine ⟨?_, ?_, ?_, ?_⟩
    · rw [hstore₁]; rfl
    · rw [hstore₁]; rfl
    · rw [hstore₁]
      simp [Stock.store, determine_origin, hmem₂, storeWriterChain, baseWriter,
        Except.isOk, Except.toBool]
    · rw [hstore₁]
      simp [Stock.store, determine_origin, hmem₂, storeWriterChain, baseWriter,
        resultDataId, DataInfo.data_id, DataInfo.ref]

/-- Witness for C2: a concrete collision on a pre-existing key, and a
concrete successful store on the empty state. -/
theorem claim_C2_witness :
    Stock.store "s".data []
        ⟨[], [((calculate_data_id "o1".data [], "r1".data),
          DataInfo.mk ⟨calculate_data_id "o1".data [], "s".data, "r1".data⟩
            "o1".data [] none [] [])]⟩
        [] [] (.value (.str "o1".data)) none none none (some "r1".data) "r0".data =
      (.error (.dataCollision "s".data (calculate_data_id "o1".data []) "r1".data),
        ⟨[], [((calculate_data_id "o1".data [], "r1".data),
          DataInfo.mk ⟨calculate_data_id "o1".data [], "s".data, "r1".data⟩
            "o1".data [] none [] [])]⟩, []) ∧
    (Stock.store "s".data [] ⟨[], []⟩ [] [] (.value (.str "o1".data)) none none none
        (some "r1".data) "r0".data).1.isOk = true ∧
    resultDataId (Stock.store "s".data [] ⟨[], []⟩ [] [] (.value (.str "o1".data))
        none none none (some "r1".data) "r0".data).1 =
      some (calculate_data_id "o1".data []) := by
  have hcoll := claim_C2 "s".data []
    ⟨[], [((calculate_data_id "o1".data [], "r1".data),
      DataInfo.mk ⟨calculate_data_id "o1".data [], "s".data, "r1".data⟩
        "o1".data [] none [] [])]⟩
    [] [] [] "o1".data none none none "r1".data "r1".data "r2".data "r0".data
    (calculate_data_id "o1".data []) rfl
  have hfresh := claim_C2 "s".data [] ⟨[], []⟩ [] [] [] "o1".data none none none
    "r1".data "r1".data "r2".data "r0".data (calculate_data_id "o1".data []) rfl
  have hmem : memExists
      ⟨[], [((calculate_data_id "o1".data [], "r1".data),
        DataInfo.mk ⟨calculate_data_id "o1".data [], "s".data, "r1".data⟩
          "o1".data [] none [] [])]⟩
      (calculate_data_id "o1".data []) "r1".data = true := by
    simp [memExists, kvGet]
  have hsucc := hfresh.2.2 rfl rfl (by decide)
  exact ⟨hcoll.1 hmem, hsucc.1, hsucc.2.1⟩

/-- Claim C8 (amended): an origin given as a zero-argument callable is
resolved by invoking it; store fails with the origin ValueError exactly
when the resolved origin is None — an empty origin string is accepted. -/
theorem claim_C8 (stock_id : Str) (ts : List (TransformerC StoreWriter StoreReader))
    (st : MemState) (content : Bytes) (parents : List DataInfo)
    (name : Option Str) (tags : Option (Dict Str)) (meta : Option (Dict MetaVal))
    (rid : Option Str) (cur : Str) (f : Unit → OriginResult) :
    Stock.store stock_id ts st content parents (.callable f) name tags meta rid cur =
      Stock.store stock_id ts st content parents (.value (f ())) name tags meta rid
        cur ∧
    (f () = .pyNone →
      Stock.store stock_id ts st content parents (.callable f) name tags meta rid cur =
        (.error (.valueError "No origin given".data), st, [])) ∧
    determine_origin (.value (.str [])) = .ok [] := by
  refine ⟨rfl, fun h => ?_, rfl⟩
  simp [Stock.store, determine_origin, h]

/-- Witness for C8: a callable resolving to None makes the concrete
store call fail with the origin error and leave the state untouched. -/
theorem claim_C8_witness :
    Stock.store "s".data [] ⟨[], []⟩ [] [] (.callable fun _ => .pyNone) none none none
        (some "r".data) "r0".data =
      (.error (.valueError "No origin given".data), ⟨[], []⟩, []) :=
  (claim_C8 "s".data [] ⟨[], []⟩ [] [] none none none (some "r".data) "r0".data
    (fun _ => .pyNone)).2.1 rfl

/-- Counterexample for C8 as stated: the resolved origin value "" is
empty, yet determine_origin accepts it and the store call succeeds
instead of failing with the configuration error. -/
theorem claim_C8_counterexample :
    determine_origin (.value (.str [])) = .ok [] ∧
    (Stock.store "s".data [] ⟨[], []⟩ [] [] (.value (.str [])) none none none
        (some "r".data) "r0".data).1.isOk = true :=
  ⟨rfl, rfl⟩

/-- Claim C10: with value_type=None, Box.store selects the last
configured value type whose supports returns true, and when none
supports the value it raises MissingValueType with the state unchanged
and nothing written (the only backend interaction is the writer
creation). -/
theorem claim_C10 (box_id : Str) (ts : List (TransformerC StoreWriter StoreReader))
    (st : MemState) (v : PyValue) (parents : List DataInfo) (o : Str)
    (name : Option Str) (tags : Option (Dict Str)) (meta : Option (Dict MetaVal))
    (r cur : Str)
    (hex : memExists st (calculate_data_id o (parents.map DataInfo.data_id)) r = false) :
    selectValueType v = (Box.value_types.filter fun vt => vt.supports v).getLast? ∧
    ((∀ vt ∈ Box.value_types, vt.supports v = false) →
      Box.store box_id ts st v parents (.value (.str o)) name tags meta none (some r)
          cur =
        (.error .missingValueType, st,
          [.writerCreated (calculate_data_id o (parents.map DataInfo.data_id)) r])) := by
  constructor
  · cases v with
    | bytes b => rfl
    | bytearray b => rfl
    | ioStream b => rfl
    | str s => rfl
    | path c e fl => cases e <;> cases fl <;> rfl
    | other => rfl
  · intro h
    have hb := h .bytesVT (by simp [Box.value_types])
    have hs := h .streamVT (by simp [Box.value_types])
    have hst := h .stringVT (by simp [Box.value_types])
    have hfl := h .fileVT (by simp [Box.value_types])
    simp [Box.store, determine_origin, hex, selectValueType, Box.value_types,
      hb, hs, hst, hfl]

/-- Witness for C10: a value no built-in value type supports makes the
concrete Box.store call fail with MissingValueType without writing. -/
theorem claim_C10_witness :
    Box.store "b".data [] ⟨[], []⟩ .other [] (.value (.str "o".data)) none none none
        none (some "r".data) "r0".data =
      (.error .missingValueType, ⟨[], []⟩,
        [.writerCreated (calculate_data_id "o".data []) "r".data]) :=
  (claim_C10 "b".data [] ⟨[], []⟩ .other [] "o".data none none none "r".data
    "r0".data rfl).2 (by decide)

theorem storeWriterChain_append {W R : Type} (ts : List (TransformerC W R))
    (t : TransformerC W R) (w : W) :
    storeWriterChain (ts ++ [t]) w = t.transform_writer (storeWriterChain ts w) := by
  simp [storeWriterChain, List.foldl_append]

theorem loadReaderChain_cons {W R : Type} (ts : List (TransformerC W R))
    (t : TransformerC W R) (r : R) :
    loadReaderChain (t :: ts) r = t.transform_reader (loadReaderChain ts r) := by
  simp [loadReaderChain, List.reverse_cons, List.foldl_append]

theorem foldl_wrap_outer (ls : List Nat) (w : Layered) :
    (ls.foldl (fun acc i => Layered.wrap i acc) w).outerLabel =
      match ls.getLast? with
      | some i => some i
      | none => w.outerLabel := by
  induction ls generalizing w with
  | nil => rfl
  | cons i ls ih =>
    cases ls with
    | nil => simp [ih, Layered.outerLabel]
    | cons j l =>
      have hne : (j :: l).getLast? ≠ none := by
        simp [List.getLast?_eq_none_iff]
      obtain ⟨x, hx⟩ := Option.ne_none_iff_exists'.mp hne
      rw [List.foldl_cons, ih]
      simp [hx, List.getLast?_cons_cons]

theorem foldl_wrap_inner (ls : List Nat) (w : Layered) :
    (ls.foldl (fun acc i => Layered.wrap i acc) w).innerLabel =
      match w with
      | .base => ls.head?
      | .wrap _ _ => w.innerLabel := by
  induction ls generalizing w with
  | nil => cases w <;> rfl
  | cons i ls ih =>
    simp only [List.foldl_cons]
    rw [ih]
    cases w <;> rfl

theorem storeWriterChain_label (ls : List Nat) (w : Layered) :
    storeWriterChain (ls.map labelTransformer) w =
      ls.foldl (fun acc i => Layered.wrap i acc) w := by
  simp [storeWriterChain, List.foldl_map, labelTransformer]

theorem loadReaderChain_label (ls : List Nat) (w : Layered) :
    loadReaderChain (ls.map labelTransformer) w =
      ls.reverse.foldl (fun acc i => Layered.wrap i acc) w := by
  simp [loadReaderChain, ← List.map_reverse, List.foldl_map, labelTransformer]

/-- Claim C5 (amended): store builds the writer chain in registration
order and load builds the reader chain in reverse registration order,
so that the last-registered transformer's decoration is the outermost
writer layer on write and the innermost reader layer on read (the
first-registered transformer is innermost on write and outermost on
read). -/
theorem claim_C5 :
    (∀ (W R : Type) (ts : List (TransformerC W R)) (t : TransformerC W R) (w : W),
      storeWriterChain (ts ++ [t]) w = t.transform_writer (storeWriterChain ts w)) ∧
    (∀ (W R : Type) (ts : List (TransformerC W R)) (t : TransformerC W R) (r : R),
      loadReaderChain (t :: ts) r = t.transform_reader (loadReaderChain ts r)) ∧
    (∀ ls : List Nat,
      (storeWriterChain (ls.map labelTransformer) .base).outerLabel = ls.getLast? ∧
      (storeWriterChain (ls.map labelTransformer) .base).innerLabel = ls.head? ∧
      (loadReaderChain (ls.map labelTransformer) .base).outerLabel = ls.head? ∧
      (loadReaderChain (ls.map labelTransformer) .base).innerLabel = ls.getLast?) := by
  refine ⟨fun W R ts t w => storeWriterChain_append ts t w,
    fun W R ts t r => loadReaderChain_cons ts t r, fun ls => ?_⟩
  refine ⟨?_, ?_, ?_, ?_⟩
  · rw [storeWriterChain_label, foldl_wrap_outer]
    cases h : ls.getLast? <;> rfl
  · rw [storeWriterChain_label, foldl_wrap_inner]
  · rw [loadReaderChain_label, foldl_wrap_outer]
    rw [List.getLast?_reverse]
    cases h : ls.head? <;> rfl
  · rw [loadReaderChain_label, foldl_wrap_inner]
    exact List.head?_reverse ls

/-- Counterexample for C5 as stated: with two registered transformers the
last-registered one is not innermost on write and not outermost on read
(it is outermost on write and innermost on read). -/
theorem claim_C5_counterexample :
    ¬ ((storeWriterChain [labelTransformer 1, labelTransformer 2] .base).innerLabel =
          some 2 ∧
       (loadReaderChain [labelTransformer 1, labelTransformer 2] .base).outerLabel =
          some 2) := by
  decide

theorem pySorted_sorted (l : List Str) : List.Sorted (· ≤ ·) (pySorted l) :=
  List.sorted_insertionSort _ l

theorem pySorted_perm (l : List Str) : (pySorted l).Perm l :=
  List.perm_insertionSort _ l

theorem pySorted_eq_of_perm {p q : List Str} (h : p.Perm q) :
    pySorted p = pySorted q :=
  List.eq_of_perm_of_sorted
    ((pySorted_perm p).trans (h.trans (pySorted_perm q).symm))
    (pySorted_sorted p) (pySorted_sorted q)

theorem append_cons_colon_inj (a₁ : Str) :
    ∀ (a₂ b₁ b₂ : Str), ':' ∉ a₁ → ':' ∉ a₂ →
      a₁ ++ ':' :: b₁ = a₂ ++ ':' :: b₂ → a₁ = a₂ ∧ b₁ = b₂ := by
  induction a₁ with
  | nil =>
    intro a₂ b₁ b₂ _ h₂ h
    cases a₂ with
    | nil => simpa using h
    | cons y ys =>
      simp only [List.nil_append, List.cons_append, List.cons.injEq] at h
      exact absurd (h.1 ▸ List.mem_cons_self y ys) h₂
  | cons x xs ih =>
    intro a₂ b₁ b₂ h₁ h₂ h
    cases a₂ with
    | nil =>
      simp only [List.nil_append, List.cons_append, List.cons.injEq] at h
      exact absurd (h.1 ▸ List.mem_cons_self x xs) h₁
    | cons y ys =>
      simp only [List.cons_append, List.cons.injEq] at h
      have hxs : ':' ∉ xs := fun hc => h₁ (List.mem_cons_of_mem x hc)
      have hys : ':' ∉ ys := fun hc => h₂ (List.mem_cons_of_mem y hc)
      obtain ⟨he, ht⟩ := ih ys b₁ b₂ hxs hys h.2
      exact ⟨by rw [h.1, he], ht⟩

theorem joinColon_inj (l₁ : List Str) :
    ∀ l₂ : List Str, l₁ ≠ [] → l₂ ≠ [] →
      (∀ s ∈ l₁, ':' ∉ s) → (∀ s ∈ l₂, ':' ∉ s) →
      joinColon l₁ = joinColon l₂ → l₁ = l₂ := by
  induction l₁ with
  | nil => intro l₂ hne; exact absurd rfl hne
  | cons a l₁ ih =>
    intro l₂ _ hne₂ hcf₁ hcf₂ h
    cases l₂ with
    | nil => exact absurd rfl hne₂
    | cons b l₂ =>
      cases l₁ with
      | nil =>
        cases l₂ with
        | nil =>
          simp only [joinColon] at h
          rw [h]
        | cons c₂ r₂ =>
          simp only [joinColon] at h
          have : ':' ∈ a := by
            rw [h]
            simp
          exact absurd this (hcf₁ a (List.mem_cons_self a []))
      | cons c₁ r₁ =>
        cases l₂ with
        | nil =>
          simp only [joinColon] at h
          have : ':' ∈ b := by
            rw [← h]
            simp
          exact absurd this (hcf₂ b (List.mem_cons_self b []))
        | cons c₂ r₂ =>
          simp only [joinColon] at h
          obtain ⟨he, ht⟩ := append_cons_colon_inj a b _ _
            (hcf₁ a (List.mem_cons_self a _)) (hcf₂ b (List.mem_cons_self b _)) h
          have htail := ih (c₂ :: r₂) (by simp) (by simp)
            (fun s hs => hcf₁ s (List.mem_cons_of_mem a hs))
            (fun s hs => hcf₂ s (List.mem_cons_of_mem b hs)) ht
          rw [he, htail]

/-- Claim C1 (amended): calculate_data_id is invariant under permutation
of the parent ids; and when origins and parent ids are free of the ':'
delimiter, two calls with a different origin or a different parent-id
set produce different pre-hash strings (so the data ids differ up to
blake2b collisions) — without that proviso the joined pre-hash string is
ambiguous and distinct inputs can share a data id. -/
theorem claim_C1 (o o₁ o₂ : Str) (p q p₁ p₂ : List Str)
    (hperm : p.Perm q)
    (hcf₁ : ∀ s ∈ o₁ :: p₁, ':' ∉ s) (hcf₂ : ∀ s ∈ o₂ :: p₂, ':' ∉ s) :
    calculate_data_id o p = calculate_data_id o q ∧
    (idOriginData o₁ p₁ = idOriginData o₂ p₂ →
      o₁ = o₂ ∧ ∀ x, x ∈ p₁ ↔ x ∈ p₂) := by
  constructor
  · simp only [calculate_data_id, idOriginData]
    rw [pySorted_eq_of_perm hperm]
  · intro heq
    simp only [idOriginData] at heq
    have hl := joinColon_inj (o₁ :: pySorted p₁) (o₂ :: pySorted p₂) (by simp)
      (by simp)
      (by
        intro s hs
        rcases List.mem_cons.mp hs with h | h
        · exact h ▸ hcf₁ o₁ (List.mem_cons_self _ _)
        · exact hcf₁ s (List.mem_cons_of_mem _ ((pySorted_perm p₁).mem_iff.mp h)))
      (by
        intro s hs
        rcases List.mem_cons.mp hs with h | h
        · exact h ▸ hcf₂ o₂ (List.mem_cons_self _ _)
        · exact hcf₂ s (List.mem_cons_of_mem _ ((pySorted_perm p₂).mem_iff.mp h)))
      heq
    simp only [List.cons.injEq] at hl
    refine ⟨hl.1, fun x => ?_⟩
    rw [← (pySorted_perm p₁).mem_iff, ← (pySorted_perm p₂).mem_iff, hl.2]

/-- Witness for C1: the concrete permutation invariance instance and a
concrete application of the difference direction. -/
theorem claim_C1_witness :
    calculate_data_id "a".data ["x".data, "y".data] =
      calculate_data_id "a".data ["y".data, "x".data] ∧
    (idOriginData "a".data ["b".data] = idOriginData "a".data ["b".data] →
      "a".data = "a".data ∧ ∀ x, x ∈ ["b".data] ↔ x ∈ ["b".data]) :=
  claim_C1 "a".data "a".data "a".data ["x".data, "y".data] ["y".data, "x".data]
    ["b".data] ["b".data] (by decide) (by decide) (by decide)

/-- Counterexample for C1 as stated: origin "a:b" with no parents and
origin "a" with parent set containing the id "b" differ in both origin
and parent set, yet calculate_data_id returns the same data id for
both, because the joined pre-hash strings coincide. -/
theorem claim_C1_counterexample :
    "a:b".data ≠ "a".data ∧
    ¬ (∀ x : Str, x ∈ ([] : List Str) ↔ x ∈ ["b".data]) ∧
    calculate_data_id "a:b".data [] = calculate_data_id "a".data ["b".data] := by
  refine ⟨by decide, fun h => ?_, ?_⟩
  · have := (h "b".data).mpr (List.mem_cons_self _ _)
    simp at this
  · show Blake2b.hexdigest 8 (utf8Encode (idOriginData "a:b".data [])) =
      Blake2b.hexdigest 8 (utf8Encode (idOriginData "a".data ["b".data]))
    have h : idOriginData "a:b".data [] = idOriginData "a".data ["b".data] := by
      decide
    rw [h]

theorem pyGet_update (d u : Dict α) (hu : (u.map Prod.fst).Nodup) (k : Str) :
    PyDict.get (PyDict.update d u) k =
      (PyDict.get u k).or (PyDict.get d k) := by
  induction u generalizing d with
  | nil => simp [PyDict.update, PyDict.get, kvGet]
  | cons kv u ih =>
    obtain ⟨k₀, v₀⟩ := kv
    simp only [List.map_cons, List.nodup_cons] at hu
    have hupd : PyDict.update d ((k₀, v₀) :: u) = PyDict.update (PyDict.set d k₀ v₀) u := by
      simp [PyDict.update]
    rw [hupd, ih _ hu.2]
    by_cases hk : k₀ = k
    · subst hk
      have hnone : kvGet u k₀ = (none : Option α) :=
        kvGet_eq_none_of_not_mem u k₀ hu.1
      simp [hnone, PyDict.get, PyDict.set, kvGet_kvSet_self, kvGet]
    · simp only [PyDict.get, PyDict.set, kvGet, if_neg hk]
      rw [kvGet_kvSet_ne _ _ _ _ hk]

theorem dropLast_append_two_ne (p : List α) (a b : α) : p.dropLast ++ [a, b] ≠ p := by
  intro h
  have := congrArg List.length h
  simp only [List.length_append, List.length_dropLast, List.length_cons,
    List.length_singleton] at this
  omega

/-- Claim C6: write_info persists the record built from the writer's ref,
name and tags and the given origin and parents unchanged, with a meta
dict in which a writer-local entry wins over the caller entry on every
colliding key and caller entries survive otherwise. -/
theorem claim_C6 (w : FileSystemWriter) (origin : Str) (parents : List DataInfo)
    (meta : Dict MetaVal) (fs : FS)
    (hu : (w.meta.map Prod.fst).Nodup)
    (hinfo_run : w.run_file ≠ w.info_file)
    (hname : ∀ n, w.name = some n →
      fs.lookup (w.run_file.parent ++ ["_named".data, n]) = none ∧
      w.run_file.parent ++ ["_named".data, n] ≠ w.info_file) :
    ∃ r fs', w.write_info origin parents meta fs = .ok (r, fs') ∧
      fs'.lookup w.info_file = some (.infoFile r) ∧
      r.ref = w.data_ref ∧ r.origin = origin ∧ r.parents = parents ∧
      r.name = w.name ∧ r.tags = w.tags ∧
      ∀ k, PyDict.get r.meta k =
        (PyDict.get w.meta k).or (PyDict.get meta k) := by
  cases hn : w.name with
  | none =>
    refine ⟨.mk w.data_ref origin parents none w.tags (PyDict.update meta w.meta),
      (fs.write w.info_file (.infoFile (.mk w.data_ref origin parents none w.tags
        (PyDict.update meta w.meta)))).write w.run_file .marker,
      ?_, ?_, rfl, rfl, rfl, rfl, rfl, ?_⟩
    · simp [FileSystemWriter.write_info, hn]
    · simp only [FS.lookup, FS.write]
      rw [kvGet_kvSet_ne _ _ _ _ hinfo_run, kvGet_kvSet_self]
    · intro k
      simp only [DataInfo.meta]
      exact pyGet_update meta w.meta hu k
  | some n =>
    obtain ⟨hfree, hne_info⟩ := hname n hn
    have hne_run : w.run_file ≠ w.run_file.parent ++ ["_named".data, n] := by
      intro h
      exact dropLast_append_two_ne w.run_file "_named".data n
        (by simpa [FPath.parent] using h.symm)
    have h1 : ((fs.write w.info_file (.infoFile (.mk w.data_ref origin parents
          (some n) w.tags (PyDict.update meta w.meta)))).write w.run_file
            .marker).lookup (w.run_file.parent ++ ["_named".data, n]) = none := by
      simp only [FS.lookup, FS.write]
      rw [kvGet_kvSet_ne _ _ _ _ hne_run,
        kvGet_kvSet_ne _ _ _ _ (Ne.symm hne_info)]
      exact hfree
    refine ⟨.mk w.data_ref origin parents (some n) w.tags (PyDict.update meta w.meta),
      ((fs.write w.info_file (.infoFile (.mk w.data_ref origin parents (some n)
          w.tags (PyDict.update meta w.meta)))).write w.run_file .marker).write
        (w.run_file.parent ++ ["_named".data, n]) (.symlink w.run_file),
      ?_, ?_, rfl, rfl, rfl, rfl, rfl, ?_⟩
    · have hcond : (((fs.write w.info_file (.infoFile (.mk w.data_ref origin parents
            (some n) w.tags (PyDict.update meta w.meta)))).write w.run_file
              .marker).lookup (w.run_file.parent ++ ["_named".data, n])).isSome =
          false := by
        rw [h1]
        rfl
      simp only [FileSystemWriter.write_info, hn, FS.symlinkTo]
      rw [hcond]
      rfl
    · simp only [FS.lookup, FS.write]
      rw [kvGet_kvSet_ne, kvGet_kvSet_ne, kvGet_kvSet_self]
      · exact hinfo_run
      · exact hne_info
    · intro k
      simp only [DataInfo.meta]
      exact pyGet_update meta w.meta hu k

/-- Witness for C6: a concrete named writer whose local meta overrides
one caller key and leaves the other caller key visible. -/
theorem claim_C6_witness :
    ∃ r fs', FileSystemWriter.write_info
        ⟨⟨"d".data, "s".data, "r".data⟩, some "n".data, [],
          ["data".data, "d".data, "r.data".data],
          ["data".data, "d".data, "r.info".data],
          ["runs".data, "r".data, "d".data], [("k2".data, .s "w".data)]⟩
        "o".data [] [("k1".data, .s "c1".data), ("k2".data, .s "c2".data)] ⟨[]⟩ =
      .ok (r, fs') ∧
      fs'.lookup ["data".data, "d".data, "r.info".data] = some (.infoFile r) ∧
      r.ref = ⟨"d".data, "s".data, "r".data⟩ ∧ r.origin = "o".data ∧
      r.parents = [] ∧ r.name = some "n".data ∧ r.tags = [] ∧
      ∀ k, PyDict.get r.meta k =
        (PyDict.get [("k2".data, MetaVal.s "w".data)] k).or
          (PyDict.get [("k1".data, MetaVal.s "c1".data),
            ("k2".data, MetaVal.s "c2".data)] k) :=
  claim_C6
    ⟨⟨"d".data, "s".data, "r".data⟩, some "n".data, [],
      ["data".data, "d".data, "r.data".data],
      ["data".data, "d".data, "r.info".data],
      ["runs".data, "r".data, "d".data], [("k2".data, .s "w".data)]⟩
    "o".data [] [("k1".data, .s "c1".data), ("k2".data, .s "c2".data)] ⟨[]⟩
    (by decide) (by decide) (fun n hn => by cases hn; exact ⟨rfl, by decide⟩)

theorem char_toNat_valid (c : Char) :
    c.toNat < 0xD800 ∨ (0xE000 ≤ c.toNat ∧ c.toNat < 0x110000) :=
  c.valid

theorem utf8EncodeChar_shape (c : Char) :
    ∃ b t, utf8EncodeChar c = b :: t := by
  simp only [utf8EncodeChar]
  by_cases h1 : c.toNat < 0x80
  · exact ⟨_, _, by rw [if_pos h1]⟩
  · by_cases h2 : c.toNat < 0x800
    · exact ⟨_, _, by rw [if_neg h1, if_pos h2]⟩
    · by_cases h3 : c.toNat < 0x10000
      · exact ⟨_, _, by rw [if_neg h1, if_neg h2, if_pos h3]⟩
      · exact ⟨_, _, by rw [if_neg h1, if_neg h2, if_neg h3]⟩

theorem utf8DecodeOne_encodeChar (c : Char) (bs : Bytes) :
    utf8DecodeOne (utf8EncodeChar c ++ bs) =
      some (c.toNat, (utf8EncodeChar c).length) := by
  have hv := char_toNat_valid c
  simp only [utf8EncodeChar]
  by_cases h1 : c.toNat < 0x80
  · simp only [if_pos h1, List.cons_append, List.nil_append, List.length_cons,
      List.length_nil]
    simp only [utf8DecodeOne, if_pos h1]
  · by_cases h2 : c.toNat < 0x800
    · simp only [if_neg h1, if_pos h2, List.cons_append, List.nil_append,
        List.length_cons, List.length_nil]
      have hb0 : ¬ (0xC0 + c.toNat / 64 < 0x80) := by omega
      have hc0 : 0xC0 ≤ 0xC0 + c.toNat / 64 ∧ 0xC0 + c.toNat / 64 < 0xE0 := by omega
      have hcond : (0x80 ≤ 0x80 + c.toNat % 64 ∧ 0x80 + c.toNat % 64 < 0xC0) ∧
          0x80 ≤ (0xC0 + c.toNat / 64 - 0xC0) * 64 + (0x80 + c.toNat % 64 - 0x80) := by
        omega
      have harith : (0xC0 + c.toNat / 64 - 0xC0) * 64 + (0x80 + c.toNat % 64 - 0x80) =
          c.toNat := by omega
      simp only [utf8DecodeOne, if_neg hb0, if_pos hc0, List.getD_cons_zero,
        if_pos hcond]
      simp only [harith]
    · by_cases h3 : c.toNat < 0x10000
      · simp only [if_neg h1, if_neg h2, if_pos h3, List.cons_append, List.nil_append,
          List.length_cons, List.length_nil]
        have hb0 : ¬ (0xE0 + c.toNat / 4096 < 0x80) := by omega
        have hb0' : ¬ (0xC0 ≤ 0xE0 + c.toNat / 4096 ∧ 0xE0 + c.toNat / 4096 < 0xE0) := by
          omega
        have hc0 : 0xE0 ≤ 0xE0 + c.toNat / 4096 ∧ 0xE0 + c.toNat / 4096 < 0xF0 := by
          omega
        have hcond : ((0x80 ≤ 0x80 + c.toNat / 64 % 64 ∧ 0x80 + c.toNat / 64 % 64 < 0xC0) ∧
            (0x80 ≤ 0x80 + c.toNat % 64 ∧ 0x80 + c.toNat % 64 < 0xC0)) ∧
            0x800 ≤ (0xE0 + c.toNat / 4096 - 0xE0) * 4096 +
              (0x80 + c.toNat / 64 % 64 - 0x80) * 64 + (0x80 + c.toNat % 64 - 0x80) ∧
            ¬ (0xD800 ≤ (0xE0 + c.toNat / 4096 - 0xE0) * 4096 +
                (0x80 + c.toNat / 64 % 64 - 0x80) * 64 + (0x80 + c.toNat % 64 - 0x80) ∧
              (0xE0 + c.toNat / 4096 - 0xE0) * 4096 +
                (0x80 + c.toNat / 64 % 64 - 0x80) * 64 + (0x80 + c.toNat % 64 - 0x80) <
                0xE000) := by
          omega
        have harith : (0xE0 + c.toNat / 4096 - 0xE0) * 4096 +
            (0x80 + c.toNat / 64 % 64 - 0x80) * 64 + (0x80 + c.toNat % 64 - 0x80) =
            c.toNat := by omega
        simp only [utf8DecodeOne, if_neg hb0, if_neg hb0', if_pos hc0,
          List.getD_cons_zero, List.getD_cons_succ, if_pos hcond]
        simp only [harith]
      · simp only [if_neg h1, if_neg h2, if_neg h3, List.cons_append, List.nil_append,
          List.length_cons, List.length_nil]
        have hb0 : ¬ (0xF0 + c.toNat / 262144 < 0x80) := by omega
        have hb0' : ¬ (0xC0 ≤ 0xF0 + c.toNat / 262144 ∧ 0xF0 + c.toNat / 262144 < 0xE0) := by
          omega
        have hb0'' : ¬ (0xE0 ≤ 0xF0 + c.toNat / 262144 ∧ 0xF0 + c.toNat / 262144 < 0xF0) := by
          omega
        have hc0 : 0xF0 ≤ 0xF0 + c.toNat / 262144 ∧ 0xF0 + c.toNat / 262144 < 0xF8 := by
          omega
        have hcond : ((0x80 ≤ 0x80 + c.toNat / 4096 % 64 ∧ 0x80 + c.toNat / 4096 % 64 < 0xC0) ∧
            (0x80 ≤ 0x80 + c.toNat / 64 % 64 ∧ 0x80 + c.toNat / 64 % 64 < 0xC0) ∧
            (0x80 ≤ 0x80 + c.toNat % 64 ∧ 0x80 + c.toNat % 64 < 0xC0)) ∧
            0x10000 ≤ (0xF0 + c.toNat / 262144 - 0xF0) * 262144 +
              (0x80 + c.toNat / 4096 % 64 - 0x80) * 4096 +
              (0x80 + c.toNat / 64 % 64 - 0x80) * 64 + (0x80 + c.toNat % 64 - 0x80) ∧
            (0xF0 + c.toNat / 262144 - 0xF0) * 262144 +
              (0x80 + c.toNat / 4096 % 64 - 0x80) * 4096 +
              (0x80 + c.toNat / 64 % 64 - 0x80) * 64 + (0x80 + c.toNat % 64 - 0x80) <
              0x110000 := by
          omega
        have harith : (0xF0 + c.toNat / 262144 - 0xF0) * 262144 +
            (0x80 + c.toNat / 4096 % 64 - 0x80) * 4096 +
            (0x80 + c.toNat / 64 % 64 - 0x80) * 64 + (0x80 + c.toNat % 64 - 0x80) =
            c.toNat := by omega
        simp only [utf8DecodeOne, if_neg hb0, if_neg hb0', if_neg hb0'', if_pos hc0,
          List.getD_cons_zero, List.getD_cons_succ, if_pos hcond]
        simp only [harith]

theorem utf8DecodeAux_encode (s : Str) : ∀ (fuel : Nat), s.length ≤ fuel →
    utf8DecodeAux fuel (utf8Encode s) = some s := by
  induction s with
  | nil =>
    intro fuel _
    cases fuel <;> rfl
  | cons c rest ih =>
    intro fuel hf
    cases fuel with
    | zero => simp at hf
    | succ f =>
      have henc : utf8Encode (c :: rest) = utf8EncodeChar c ++ utf8Encode rest := rfl
      obtain ⟨b, t, hbt⟩ := utf8EncodeChar_shape c
      have hshape : utf8Encode (c :: rest) = b :: (t ++ utf8Encode rest) := by
        rw [henc, hbt]
        rfl
      rw [hshape]
      have hone : utf8DecodeOne (b :: (t ++ utf8Encode rest)) =
          some (c.toNat, (utf8EncodeChar c).length) := by
        rw [show b :: (t ++ utf8Encode rest) = utf8EncodeChar c ++ utf8Encode rest by
          rw [hbt]; rfl]
        exact utf8DecodeOne_encodeChar c (utf8Encode rest)
      have hdrop : (b :: (t ++ utf8Encode rest)).drop (utf8EncodeChar c).length =
          utf8Encode rest := by
        rw [show b :: (t ++ utf8Encode rest) = utf8EncodeChar c ++ utf8Encode rest by
          rw [hbt]; rfl]
        exact List.drop_left _ _
      simp only [utf8DecodeAux, hone, hdrop]
      rw [ih f (by simpa using hf)]
      simp [Char.ofNat_toNat]

theorem utf8Encode_length (s : Str) : s.length ≤ (utf8Encode s).length := by
  induction s with
  | nil => simp [utf8Encode]
  | cons c rest ih =>
    have henc : utf8Encode (c :: rest) = utf8EncodeChar c ++ utf8Encode rest := rfl
    obtain ⟨b, t, hbt⟩ := utf8EncodeChar_shape c
    rw [henc, hbt]
    simp only [List.length_cons, List.cons_append, List.length_append]
    omega

theorem utf8Decode_encode (s : Str) : utf8Decode (utf8Encode s) = some s :=
  utf8DecodeAux_encode s (utf8Encode s).length (utf8Encode_length s)

theorem utf16EncodeChar_shape (c : Char) :
    ∃ b t, utf16EncodeChar c = b :: t := by
  simp only [utf16EncodeChar]
  by_cases h1 : c.toNat < 0x10000
  · exact ⟨_, _, by rw [if_pos h1]⟩
  · exact ⟨_, _, by rw [if_neg h1]⟩

theorem utf16DecodeOne_single (u : Nat) (bs : Bytes)
    (h : u < 0xD800 ∨ 0xE000 ≤ u) :
    utf16DecodeOne ((u % 256) :: (u / 256) :: bs) = some (u, 2) := by
  simp only [utf16DecodeOne]
  have h2 : u % 256 + 256 * (u / 256) = u := by omega
  rw [h2, if_pos h]

theorem utf16DecodeOne_pair (hi lo : Nat) (bs : Bytes)
    (hhi : 0xD800 ≤ hi ∧ hi < 0xDC00) (hlo : 0xDC00 ≤ lo ∧ lo < 0xE000) :
    utf16DecodeOne ((hi % 256) :: (hi / 256) :: (lo % 256) :: (lo / 256) :: bs) =
      some (0x10000 + (hi - 0xD800) * 1024 + (lo - 0xDC00), 4) := by
  simp only [utf16DecodeOne, List.getD_cons_zero, List.getD_cons_succ]
  have h2 : hi % 256 + 256 * (hi / 256) = hi := by omega
  have h3 : lo % 256 + 256 * (lo / 256) = lo := by omega
  rw [h2, h3, if_neg (by omega), if_pos (by omega : hi < 0xDC00),
    if_pos (by omega : 0xDC00 ≤ lo ∧ lo < 0xE000)]

theorem utf16DecodeOne_encodeChar (c : Char) (bs : Bytes) :
    utf16DecodeOne (utf16EncodeChar c ++ bs) =
      some (c.toNat, (utf16EncodeChar c).length) := by
  have hv := char_toNat_valid c
  by_cases h1 : c.toNat < 0x10000
  · have hshape : utf16EncodeChar c ++ bs =
        (c.toNat % 256) :: (c.toNat / 256) :: bs := by
      simp only [utf16EncodeChar]
      simp only [if_pos h1, List.cons_append, List.nil_append]
    have hlen : (utf16EncodeChar c).length = 2 := by
      simp only [utf16EncodeChar]
      rw [if_pos h1]
      rfl
    rw [hshape, hlen]
    exact utf16DecodeOne_single _ _ (by omega)
  · have hshape : utf16EncodeChar c ++ bs =
        ((0xD800 + (c.toNat - 0x10000) / 1024) % 256) ::
        ((0xD800 + (c.toNat - 0x10000) / 1024) / 256) ::
        ((0xDC00 + (c.toNat - 0x10000) % 1024) % 256) ::
        ((0xDC00 + (c.toNat - 0x10000) % 1024) / 256) :: bs := by
      simp only [utf16EncodeChar]
      simp only [if_neg h1, List.cons_append, List.nil_append]
    have hlen : (utf16EncodeChar c).length = 4 := by
      simp only [utf16EncodeChar]
      rw [if_neg h1]
      rfl
    rw [hshape, hlen]
    rw [utf16DecodeOne_pair _ _ _ (by constructor <;> omega)
      (by constructor <;> omega)]
    have hval : 0x10000 + (0xD800 + (c.toNat - 0x10000) / 1024 - 0xD800) * 1024 +
        (0xDC00 + (c.toNat - 0x10000) % 1024 - 0xDC00) = c.toNat := by omega
    rw [hval]

theorem utf16AuxLE_units (s : Str) : ∀ (fuel : Nat), s.length ≤ fuel →
    utf16DecodeAuxLE fuel (s.foldr (fun c acc => utf16EncodeChar c ++ acc) []) =
      some s := by
  induction s with
  | nil =>
    intro fuel _
    cases fuel <;> rfl
  | cons c rest ih =>
    intro fuel hf
    cases fuel with
    | zero => simp at hf
    | succ f =>
      obtain ⟨b, t, hbt⟩ := utf16EncodeChar_shape c
      have hshape : (c :: rest).foldr (fun c acc => utf16EncodeChar c ++ acc) [] =
          b :: (t ++ rest.foldr (fun c acc => utf16EncodeChar c ++ acc) []) := by
        simp only [List.foldr_cons]
        rw [hbt]
        rfl
      rw [hshape]
      have hone : utf16DecodeOne
          (b :: (t ++ rest.foldr (fun c acc => utf16EncodeChar c ++ acc) [])) =
          some (c.toNat, (utf16EncodeChar c).length) := by
        rw [show b :: (t ++ rest.foldr (fun c acc => utf16EncodeChar c ++ acc) []) =
            utf16EncodeChar c ++ rest.foldr (fun c acc => utf16EncodeChar c ++ acc) []
          by rw [hbt]; rfl]
        exact utf16DecodeOne_encodeChar c _
      have hdrop : (b :: (t ++ rest.foldr (fun c acc => utf16EncodeChar c ++ acc)
          [])).drop (utf16EncodeChar c).length =
          rest.foldr (fun c acc => utf16EncodeChar c ++ acc) [] := by
        rw [show b :: (t ++ rest.foldr (fun c acc => utf16EncodeChar c ++ acc) []) =
            utf16EncodeChar c ++ rest.foldr (fun c acc => utf16EncodeChar c ++ acc) []
          by rw [hbt]; rfl]
        exact List.drop_left _ _
      simp only [utf16DecodeAuxLE, hone, hdrop]
      rw [ih f (by simpa using hf)]
      simp [Char.ofNat_toNat]

theorem utf16Units_length (s : Str) :
    s.length ≤ (s.foldr (fun c acc => utf16EncodeChar c ++ acc) []).length := by
  induction s with
  | nil => simp
  | cons c rest ih =>
    obtain ⟨b, t, hbt⟩ := utf16EncodeChar_shape c
    have hfold : (c :: rest).foldr (fun c acc => utf16EncodeChar c ++ acc) [] =
        utf16EncodeChar c ++ rest.foldr (fun c acc => utf16EncodeChar c ++ acc) [] :=
      rfl
    rw [hfold, hbt]
    simp only [List.length_cons, List.cons_append, List.length_append]
    omega

theorem utf16Decode_encode (s : Str) : utf16Decode (utf16Encode s) = some s := by
  have henc : utf16Encode s =
      0xFF :: 0xFE :: s.foldr (fun c acc => utf16EncodeChar c ++ acc) [] := rfl
  rw [henc]
  simp only [utf16Decode]
  rw [if_pos]
  · simp only [List.drop_succ_cons, List.drop_zero, utf16DecodeLE]
    exact utf16AuxLE_units s _ (utf16Units_length s)
  · rfl

theorem splitFirst_append_cons (ch : Char) (a b : Str) (h : ch ∉ a) :
    splitFirst ch (a ++ ch :: b) = some (a, b) := by
  induction a with
  | nil => simp [splitFirst]
  | cons x xs ih =>
    have hx : x ≠ ch := fun hc => h (hc ▸ List.mem_cons_self x xs)
    have hxs : ch ∉ xs := fun hc => h (List.mem_cons_of_mem x hc)
    simp only [List.cons_append, splitFirst, if_neg hx, List.append_eq, ih hxs]
    rfl

theorem translateNewlines_cons_ne (c : Char) (rest : Str) (hc : c ≠ '\r') :
    translateNewlines (c :: rest) = c :: translateNewlines rest := by
  cases rest with
  | nil => simp [translateNewlines, hc]
  | cons c₂ r => simp [translateNewlines, hc]

theorem translateNewlines_eq_self (s : Str) (h : '\r' ∉ s) :
    translateNewlines s = s := by
  induction s with
  | nil => rfl
  | cons c rest ih =>
    have hc : c ≠ '\r' := fun hce => h (hce ▸ List.mem_cons_self c rest)
    rw [translateNewlines_cons_ne c rest hc,
      ih (fun hm => h (List.mem_cons_of_mem c hm))]

/-- Claim C3 (amended): the bytes codec round-trips unconditionally; the
string codec round-trips under any registered encoding, with the reading
codec recreated from the writing codec's specification string, for
strings without a carriage return — the reading io.TextIOWrapper's
universal-newline translation rewrites a '\r', so strings containing one
come back changed (claim_C3_counterexample). -/
theorem claim_C3 (v : Bytes) (w w₂ : WriterV) (s : Str) (enc : Str)
    (hcr : '\r' ∉ s)
    (henc : enc = "utf-8".data ∨ enc = "utf-16".data) :
    BytesValueType.read_value_from_reader
        (readerOfWriter (BytesValueType.write_value_to_writer v w)) = v ∧
    ∃ w', StringValueType.write_value_to_writer ⟨enc⟩ s w₂ = .ok w' ∧
      ValueType.from_specification (StringValueType.get_specification ⟨enc⟩) =
        .ok (.stringVT ⟨enc⟩) ∧
      StringValueType.read_value_from_reader ⟨enc⟩ (readerOfWriter w') = .ok s := by
  have hspec : ValueType.from_specification (StringValueType.get_specification ⟨enc⟩) =
      .ok (.stringVT ⟨enc⟩) := by
    have h1 : StringValueType.get_specification ⟨enc⟩ =
        "boxs.value_types".data ++ ':' :: ("StringValueType".data ++ ':' :: enc) := rfl
    have h2 : splitColon2 ("boxs.value_types".data ++ ':' ::
        ("StringValueType".data ++ ':' :: enc)) =
        some ("boxs.value_types".data, "StringValueType".data, enc) := by
      unfold splitColon2
      rw [splitFirst_append_cons ':' "boxs.value_types".data _ (by decide)]
      dsimp only
      rw [splitFirst_append_cons ':' "StringValueType".data _ (by decide)]
    simp only [ValueType.from_specification, h1, h2]
    rfl
  refine ⟨rfl, ?_⟩
  cases henc with
  | inl h =>
    subst h
    refine ⟨⟨utf8Encode s, PyDict.set w₂.meta "encoding".data (.s "utf-8".data)⟩,
      ?_, hspec, ?_⟩
    · simp only [StringValueType.write_value_to_writer, pyEncode]
      rfl
    · simp only [StringValueType.read_value_from_reader, readerOfWriter, PyDict.get,
        PyDict.set, kvGet_kvSet_self]
      simp [pyDecode, utf8Decode_encode, Except.map,
        translateNewlines_eq_self s hcr]
  | inr h =>
    subst h
    refine ⟨⟨utf16Encode s, PyDict.set w₂.meta "encoding".data (.s "utf-16".data)⟩,
      ?_, hspec, ?_⟩
    · simp only [StringValueType.write_value_to_writer, pyEncode]
      rfl
    · simp only [StringValueType.read_value_from_reader, readerOfWriter, PyDict.get,
        PyDict.set, kvGet_kvSet_self]
      simp [pyDecode, utf16Decode_encode, Except.map,
        translateNewlines_eq_self s hcr]

/-- Witness for C3: concrete bytes and a concrete string through the
utf-8 codec recreated from its specification. -/
theorem claim_C3_witness :
    BytesValueType.read_value_from_reader
        (readerOfWriter (BytesValueType.write_value_to_writer [1, 2, 3] ⟨[], []⟩)) =
      [1, 2, 3] ∧
    ∃ w', StringValueType.write_value_to_writer ⟨"utf-8".data⟩ "hi".data ⟨[], []⟩ =
        .ok w' ∧
      ValueType.from_specification
          (StringValueType.get_specification ⟨"utf-8".data⟩) =
        .ok (.stringVT ⟨"utf-8".data⟩) ∧
      StringValueType.read_value_from_reader ⟨"utf-8".data⟩ (readerOfWriter w') =
        .ok "hi".data :=
  claim_C3 [1, 2, 3] ⟨[], []⟩ ⟨[], []⟩ "hi".data "utf-8".data (by decide)
    (Or.inl rfl)

/-- Counterexample for C3 as stated: a string containing a carriage
return does not round-trip — the reading io.TextIOWrapper translates the
'\r' to '\n', so the value read back differs from the value written. -/
theorem claim_C3_counterexample :
    StringValueType.write_value_to_writer ⟨"utf-8".data⟩ "a\rb".data ⟨[], []⟩ =
      .ok ⟨utf8Encode "a\rb".data,
        PyDict.set [] "encoding".data (.s "utf-8".data)⟩ ∧
    StringValueType.read_value_from_reader ⟨"utf-8".data⟩
        (readerOfWriter ⟨utf8Encode "a\rb".data,
          PyDict.set [] "encoding".data (.s "utf-8".data)⟩) =
      .ok "a\nb".data ∧
    "a\nb".data ≠ "a\rb".data :=
  ⟨rfl, rfl, by decide⟩

theorem kvGet_map_swap_eq_none (entries : List (Str × Str)) (rid : Str)
    (h : ∀ e ∈ entries, e.2 ≠ rid) : kvGet (entries.map Prod.swap) rid = none := by
  induction entries with
  | nil => rfl
  | cons e rest ih =>
    simp only [List.map_cons, kvGet, Prod.swap]
    rw [if_neg (h e (List.mem_cons_self e rest))]
    exact ih fun e' he' => h e' (List.mem_cons_of_mem e he')

theorem kvGet_map_swap_mem (entries : List (Str × Str)) (rid nm : Str)
    (h : kvGet (entries.map Prod.swap) rid = some nm) : (nm, rid) ∈ entries := by
  induction entries with
  | nil => simp [kvGet] at h
  | cons e rest ih =>
    simp only [List.map_cons, kvGet, Prod.swap] at h
    by_cases he : e.2 = rid
    · rw [if_pos he] at h
      obtain rfl : e.1 = nm := Option.some.inj h
      exact he ▸ List.mem_cons_self e rest
    · rw [if_neg he] at h
      exact List.mem_cons_of_mem e (ih h)

theorem getRunNames_ok (entries : List (Str × Str)) : ∀ (acc m : Dict Str),
    List.foldlM
      (fun acc nm_rid =>
        if (PyDict.get acc nm_rid.2).isSome then
          Except.error (PyError.keyError "Multiple names for single run".data)
        else Except.ok (PyDict.set acc nm_rid.2 nm_rid.1)) acc entries = .ok m →
    ((entries.map Prod.snd).Nodup ∧ ∀ e ∈ entries, kvGet acc e.2 = none) ∧
    ∀ rid, kvGet m rid = (kvGet (entries.map Prod.swap) rid).or (kvGet acc rid) := by
  induction entries with
  | nil =>
    intro acc m h
    obtain rfl : acc = m := Except.ok.inj h
    refine ⟨⟨List.nodup_nil, by simp⟩, fun rid => ?_⟩
    simp [Option.or, kvGet]
  | cons x xs ih =>
    intro acc m h
    rw [List.foldlM_cons] at h
    by_cases hcond : (PyDict.get acc x.2).isSome
    · rw [if_pos hcond] at h
      exact Except.noConfusion h
    · rw [if_neg hcond] at h
      have h' : List.foldlM
          (fun acc nm_rid =>
            if (PyDict.get acc nm_rid.2).isSome then
              Except.error (PyError.keyError "Multiple names for single run".data)
            else Except.ok (PyDict.set acc nm_rid.2 nm_rid.1))
          (PyDict.set acc x.2 x.1) xs = .ok m := h
      obtain ⟨⟨hnd, hacc⟩, hcontent⟩ := ih (PyDict.set acc x.2 x.1) m h'
      have hxacc : kvGet acc x.2 = none := by
        cases hk : kvGet acc x.2 with
        | none => rfl
        | some v =>
          rw [show PyDict.get acc x.2 = kvGet acc x.2 from rfl, hk] at hcond
          simp at hcond
      have hxnotin : x.2 ∉ xs.map Prod.snd := by
        intro hmem
        obtain ⟨e, he, heq⟩ := List.mem_map.mp hmem
        have := hacc e he
        rw [heq] at this
        rw [show PyDict.set acc x.2 x.1 = kvSet acc x.2 x.1 from rfl,
          kvGet_kvSet_self] at this
        exact Option.noConfusion this
      refine ⟨⟨List.nodup_cons.mpr ⟨by simpa using hxnotin, hnd⟩, ?_⟩, ?_⟩
      · intro e he
        rcases List.mem_cons.mp he with rfl | he'
        · exact hxacc
        · have := hacc e he'
          by_cases hex : e.2 = x.2
          · rw [show PyDict.set acc x.2 x.1 = kvSet acc x.2 x.1 from rfl, hex,
              kvGet_kvSet_self] at this
            exact Option.noConfusion this
          · rw [show PyDict.set acc x.2 x.1 = kvSet acc x.2 x.1 from rfl,
              kvGet_kvSet_ne _ _ _ _ (Ne.symm hex)] at this
            exact this
      · intro rid
        rw [hcontent rid]
        simp only [List.map_cons, Prod.swap, kvGet]
        by_cases hrid : x.2 = rid
        · rw [if_pos hrid]
          have hxs_none : kvGet (xs.map Prod.swap) rid = none := by
            apply kvGet_map_swap_eq_none
            intro e he hce
            exact hxnotin (hrid ▸ hce ▸ List.mem_map_of_mem Prod.snd he)
          rw [hxs_none, ← hrid,
            show PyDict.set acc x.2 x.1 = kvSet acc x.2 x.1 from rfl,
            kvGet_kvSet_self]
          simp [Option.or]
        · rw [if_neg hrid,
            show PyDict.set acc x.2 x.1 = kvSet acc x.2 x.1 from rfl,
            kvGet_kvSet_ne _ _ _ _ hrid]

theorem filter_snd_len_le_one (l : List (Str × Str))
    (hT : (l.map Prod.snd).Nodup) (rid : Str) :
    ((l.filter fun e => e.2 = rid).map Prod.fst).length ≤ 1 := by
  induction l with
  | nil => simp
  | cons e rest ih =>
    simp only [List.map_cons, List.nodup_cons] at hT
    by_cases he : e.2 = rid
    · have hrest : rest.filter (fun e => e.2 = rid) = [] := by
        rw [List.filter_eq_nil_iff]
        intro a ha hpa
        simp only [decide_eq_true_eq] at hpa
        exact hT.1 (he ▸ hpa ▸ List.mem_map_of_mem Prod.snd ha)
      simp [List.filter_cons, he, hrest]
    · simp only [List.filter_cons, decide_eq_true_eq, if_neg he]
      exact ih hT.2

theorem kvGet_map_swap_none_forall (entries : List (Str × Str)) (rid : Str)
    (h : kvGet (entries.map Prod.swap) rid = none) : ∀ e ∈ entries, e.2 ≠ rid := by
  induction entries with
  | nil => simp
  | cons e rest ih =>
    simp only [List.map_cons, kvGet, Prod.swap] at h
    by_cases he : e.2 = rid
    · rw [if_pos he] at h
      exact Option.noConfusion h
    · rw [if_neg he] at h
      intro e' he'
      rcases List.mem_cons.mp he' with rfl | he''
      · exact he
      · exact ih h e' he''

theorem removeNameForRun_ok (d : NamesDir) (run_id : Str)
    (hN : (d.entries.map Prod.fst).Nodup) (d₁ : NamesDir)
    (h : d.removeNameForRun run_id = .ok d₁) :
    (d.entries.map Prod.snd).Nodup ∧
    d₁.namesOf run_id = [] ∧
    (∀ rid, rid ≠ run_id → d₁.namesOf rid = d.namesOf rid) ∧
    (d₁.entries.map Prod.fst).Nodup ∧
    (d₁.entries.map Prod.snd).Nodup := by
  unfold NamesDir.removeNameForRun at h
  cases hg : getRunNames d.entries with
  | error e =>
    rw [hg] at h
    exact Except.noConfusion h
  | ok m =>
    rw [hg] at h
    obtain ⟨⟨hT, _⟩, hC⟩ := getRunNames_ok d.entries [] m hg
    have h' : (match PyDict.get m run_id with
        | some nm => Except.ok (d.unlinkName nm)
        | none => Except.ok d) = Except.ok d₁ := h
    have hCrun := hC run_id
    cases hfind : kvGet (d.entries.map Prod.swap) run_id with
    | none =>
      rw [hfind] at hCrun
      have hnone : PyDict.get m run_id = none := by
        show kvGet m run_id = none
        rw [hCrun]
        rfl
      rw [hnone] at h'
      obtain rfl : d = d₁ := Except.ok.inj h'
      have hempty : d.namesOf run_id = [] := by
        simp only [NamesDir.namesOf]
        rw [show (d.entries.filter fun e => e.2 = run_id) = [] from ?_]
        · rfl
        · rw [List.filter_eq_nil_iff]
          intro a ha hpa
          simp only [decide_eq_true_eq] at hpa
          exact kvGet_map_swap_none_forall d.entries run_id hfind a ha hpa
      exact ⟨hT, hempty, fun rid _ => rfl, hN, hT⟩
    | some nm =>
      rw [hfind] at hCrun
      have hsome : PyDict.get m run_id = some nm := by
        show kvGet m run_id = some nm
        rw [hCrun]
        rfl
      rw [hsome] at h'
      obtain rfl : d.unlinkName nm = d₁ := Except.ok.inj h'
      have hmem : (nm, run_id) ∈ d.entries := kvGet_map_swap_mem _ _ _ hfind
      have huniq : ∀ e ∈ d.entries, e.2 = run_id → e = (nm, run_id) := by
        intro e he h2
        exact List.inj_on_of_nodup_map hT he hmem (by simpa using h2)
      have hname_uniq : ∀ e ∈ d.entries, e.1 = nm → e = (nm, run_id) := by
        intro e he h1
        exact List.inj_on_of_nodup_map hN he hmem (by simpa using h1)
      refine ⟨hT, ?_, ?_, ?_, ?_⟩
      · simp only [NamesDir.namesOf, NamesDir.unlinkName, List.filter_filter]
        rw [show (d.entries.filter fun a =>
            decide (a.2 = run_id) && decide (a.1 ≠ nm)) = [] from ?_]
        · rfl
        · rw [List.filter_eq_nil_iff]
          intro a ha hpa
          simp only [Bool.and_eq_true, decide_eq_true_eq] at hpa
          exact hpa.2 (congrArg Prod.fst (huniq a ha hpa.1))
      · intro rid hrid
        simp only [NamesDir.namesOf, NamesDir.unlinkName, List.filter_filter]
        have hcong : (d.entries.filter fun a =>
            decide (a.2 = rid) && decide (a.1 ≠ nm)) =
            d.entries.filter fun e => e.2 = rid := by
          apply List.filter_congr
          intro x hx
          by_cases hx2 : x.2 = rid
          · have hx1 : x.1 ≠ nm := by
              intro h1
              have hxval := hname_uniq x hx h1
              rw [hxval] at hx2
              exact hrid hx2.symm
            simp [hx2, hx1]
          · simp [hx2]
        rw [hcong]
      · simp only [NamesDir.unlinkName]
        exact List.Nodup.sublist
          (List.Sublist.map Prod.fst (List.filter_sublist d.entries)) hN
      · simp only [NamesDir.unlinkName]
        exact List.Nodup.sublist
          (List.Sublist.map Prod.snd (List.filter_sublist d.entries)) hT

/-- Claim C9: set_run_name first removes any existing name symlink of the
run and then creates a new one only for a non-null name, so afterwards
the run is named exactly by the given name (or nothing, when null),
other runs keep their names, and every run has at most one active
name. -/
theorem claim_C9 (d : NamesDir) (run_id : Str) (name : Option Str)
    (hnames : (d.entries.map Prod.fst).Nodup) (d' : NamesDir) (res : Option Str)
    (hok : set_run_name d run_id name = .ok (d', res)) :
    d'.namesOf run_id = name.toList ∧
    (∀ rid, rid ≠ run_id → d'.namesOf rid = d.namesOf rid) ∧
    (∀ rid, (d'.namesOf rid).length ≤ 1) := by
  unfold set_run_name at hok
  cases hrm : NamesDir.removeNameForRun d run_id with
  | error e =>
    rw [hrm] at hok
    exact Except.noConfusion hok
  | ok d₁ =>
    rw [hrm] at hok
    obtain ⟨hT, hrun, hother, hN₁, hT₁⟩ := removeNameForRun_ok d run_id hnames d₁ hrm
    have hrun' : ((d₁.entries.filter fun e => e.2 = run_id).map Prod.fst) = [] := hrun
    have hfilter_nil : (d₁.entries.filter fun e => e.2 = run_id) = [] :=
      List.map_eq_nil_iff.mp hrun'
    cases name with
    | none =>
      have hok' : Except.bind (getRunNames d₁.entries)
          (fun rn => Except.ok (d₁, PyDict.get rn run_id)) =
          Except.ok (d', res) := hok
      cases hg₂ : getRunNames d₁.entries with
      | error e =>
        rw [hg₂] at hok'
        have hc : (Except.error e : Except PyError (NamesDir × Option Str)) =
            Except.ok (d', res) := hok'
        exact Except.noConfusion hc
      | ok rn =>
        rw [hg₂] at hok'
        have hok'' : (Except.ok (d₁, PyDict.get rn run_id) :
            Except PyError (NamesDir × Option Str)) = Except.ok (d', res) := hok'
        injection hok'' with hpair
        injection hpair with h1 h2
        subst h1
        exact ⟨hrun, hother, fun rid => filter_snd_len_le_one d₁.entries hT₁ rid⟩
    | some nm =>
      have hok' : Except.bind (NamesDir.setNameForRun d₁ nm run_id)
          (fun d₂ => Except.bind (getRunNames d₂.entries)
            (fun rn => Except.ok (d₂, PyDict.get rn run_id))) =
          Except.ok (d', res) := hok
      cases hset : NamesDir.setNameForRun d₁ nm run_id with
      | error e =>
        rw [hset] at hok'
        have hc : (Except.error e : Except PyError (NamesDir × Option Str)) =
            Except.ok (d', res) := hok'
        exact Except.noConfusion hc
      | ok d₂ =>
        rw [hset] at hok'
        have hok₂ : Except.bind (getRunNames d₂.entries)
            (fun rn => Except.ok (d₂, PyDict.get rn run_id)) =
            Except.ok (d', res) := hok'
        have hd₂ : d₂.entries = d₁.entries ++ [(nm, run_id)] := by
          unfold NamesDir.setNameForRun at hset
          by_cases hlk : (d₁.entries.lookup nm).isSome
          · rw [if_pos hlk] at hset
            exact Except.noConfusion hset
          · rw [if_neg hlk] at hset
            exact (congrArg NamesDir.entries (Except.ok.inj hset)).symm
        cases hg₂ : getRunNames d₂.entries with
        | error e =>
          rw [hg₂] at hok₂
          have hc : (Except.error e : Except PyError (NamesDir × Option Str)) =
              Except.ok (d', res) := hok₂
          exact Except.noConfusion hc
        | ok rn =>
          rw [hg₂] at hok₂
          have hok₃ : (Except.ok (d₂, PyDict.get rn run_id) :
              Except PyError (NamesDir × Option Str)) = Except.ok (d', res) := hok₂
          injection hok₃ with hpair
          injection hpair with h1 h2
          subst h1
          have hA : d₂.namesOf run_id = [nm] := by
            simp only [NamesDir.namesOf, hd₂, List.filter_append, hfilter_nil]
            simp
          have hB : ∀ rid, rid ≠ run_id → d₂.namesOf rid = d₁.namesOf rid := by
            intro rid hrid
            simp only [NamesDir.namesOf, hd₂, List.filter_append, List.map_append]
            rw [show ([(nm, run_id)].filter fun e => e.2 = rid) = [] from by
              simp [Ne.symm hrid]]
            simp
          refine ⟨hA, ?_, ?_⟩
          · intro rid hrid
            rw [hB rid hrid]
            exact hother rid hrid
          · intro rid
            by_cases hrid : rid = run_id
            · subst hrid
              rw [hA]
              simp
            · rw [hB rid hrid]
              exact filter_snd_len_le_one d₁.entries hT₁ rid
theorem claim_C9_witness :
    (((⟨[("old".data, "run1".data)]⟩ : NamesDir).entries.map Prod.fst).Nodup) ∧
    (NamesDir.namesOf ⟨[("new".data, "run1".data)]⟩ "run1".data =
        (some "new".data).toList ∧
      (∀ rid, rid ≠ "run1".data →
        NamesDir.namesOf ⟨[("new".data, "run1".data)]⟩ rid =
          NamesDir.namesOf ⟨[("old".data, "run1".data)]⟩ rid) ∧
      (∀ rid, (NamesDir.namesOf ⟨[("new".data, "run1".data)]⟩ rid).length ≤ 1)) :=
  ⟨by decide,
    claim_C9 ⟨[("old".data, "run1".data)]⟩ "run1".data (some "new".data)
      (by decide) ⟨[("new".data, "run1".data)]⟩ (some "new".data) (by rfl)⟩

/-! ### Claim C7: DataRef URI round trip -/

theorem splitParams_eq_self (p : Str) (h : ';' ∉ p) : splitParams p = p := by
  unfold splitParams
  rw [if_neg h]

